import Mathlib

/-!
Verification development for the AI Techne Academy transcript-processing core.

The definitions below are a shallow embedding of the Python sources under
`src/processor/`:
  - `circuit_breaker.py` (`BedrockCircuitBreaker`)
  - `llm_client.py` (`RateLimiter`, `BedrockLLMClient`, `TokenUsage`)
  - `transcription_parser.py` (`TranscriptionParser`)
  - `document_generator.py` (`DocumentGenerator`)
Wall-clock times (Python `time.time()` floats) are modelled as rationals,
machine integers as `Nat`, and raised exceptions as explicit result
constructors.  Each definition cites the function it translates.
-/

/-- Character-list matcher: `strMatchAt needle hay` is true when `needle`
occurs at the very front of `hay` (used to build substring containment,
which models the Python `in` operator on strings). -/
def strMatchAt : List Char → List Char → Bool
  | [], _ => true
  | _ :: _, [] => false
  | c :: cs, d :: ds => c = d && strMatchAt cs ds

/-- Auxiliary scan for substring containment over character lists. -/
def strContainsAux (needle : List Char) : List Char → Bool
  | [] => strMatchAt needle []
  | c :: cs => strMatchAt needle (c :: cs) || strContainsAux needle cs

/-- Models Python `needle in hay` on strings (substring containment). -/
def strContains (hay needle : String) : Bool :=
  strContainsAux needle.data hay.data

/-- Models Python `sep.join(xs)`: the empty string on an empty list, and the
elements separated by `sep` otherwise. -/
def joinWith (sep : String) : List String → String
  | [] => ""
  | [s] => s
  | s :: t :: rest => s ++ sep ++ joinWith sep (t :: rest)

/-- Models Python `' '.join(xs)`. -/
def spaceJoin : List String → String := joinWith " "

namespace CircuitBreakerModel

/-- Embeds `CircuitState` from `circuit_breaker.py`. -/
inductive CircuitState where
  | CLOSED
  | OPEN
  | HALF_OPEN
deriving DecidableEq, Repr

/-- Embeds the mutable attributes of `BedrockCircuitBreaker` (constructor
parameters plus the state-tracking fields set in `__init__`). -/
structure Breaker where
  failure_threshold : Nat
  timeout : Rat
  expected_errors : List String
  failure_count : Nat
  last_failure_time : Option Rat
  state : CircuitState
  last_success_time : Option Rat
deriving DecidableEq, Repr

/-- Embeds `BedrockCircuitBreaker.__init__`: fresh breaker in the CLOSED
state with zero recorded failures. -/
def initBreaker (failure_threshold : Nat) (timeout : Rat)
    (expected_errors : List String) : Breaker :=
  { failure_threshold := failure_threshold
    timeout := timeout
    expected_errors := expected_errors
    failure_count := 0
    last_failure_time := none
    state := CircuitState.CLOSED
    last_success_time := none }

/-- Default `expected_error_codes` list from `BedrockCircuitBreaker.__init__`. -/
def defaultExpectedErrors : List String :=
  ["ThrottlingException", "TooManyRequestsException",
   "ServiceQuotaExceededException", "ModelStreamErrorException",
   "ModelTimeoutException"]

/-- Embeds the quota-classification test inside `BedrockCircuitBreaker.call`:
`any(err in error_str or err == error_name for err in self.expected_errors)`. -/
def isQuotaError (expected : List String) (errName errStr : String) : Bool :=
  expected.any (fun err => strContains errStr err || err == errName)

/-- Embeds `BedrockCircuitBreaker._should_attempt_reset`. -/
def shouldAttemptReset (b : Breaker) (now : Rat) : Bool :=
  match b.last_failure_time with
  | none => true
  | some t => decide (b.timeout ≤ now - t)

/-- Embeds `BedrockCircuitBreaker._record_failure`. -/
def recordFailure (b : Breaker) (now : Rat) : Breaker :=
  { b with
    failure_count := b.failure_count + 1
    last_failure_time := some now
    state :=
      if b.failure_threshold ≤ b.failure_count + 1 then CircuitState.OPEN
      else b.state }

/-- Behaviour of the protected function at the moment the breaker admits the
call: it either returns normally or raises an exception with the given type
name and message. -/
inductive FnOutcome where
  | success
  | raise (errName errStr : String)
deriving DecidableEq, Repr

/-- Observable result of one `BedrockCircuitBreaker.call`: normal return,
immediate rejection with a `CircuitBreakerOpen` carrying the remaining wait
time, or re-raise of the protected function's exception. -/
inductive CallResult where
  | ok
  | rejectedOpen (time_remaining : Rat)
  | raised (errName errStr : String)
deriving DecidableEq, Repr

/-- Embeds `BedrockCircuitBreaker.call`.  One call happens at wall-clock time
`now`; `outcome` is what the protected function does if it is admitted. -/
def call (b : Breaker) (now : Rat) (outcome : FnOutcome) : CallResult × Breaker :=
  if b.state = CircuitState.OPEN ∧ shouldAttemptReset b now = false then
    match b.last_failure_time with
    | none => (CallResult.rejectedOpen b.timeout, b)
    | some tf => (CallResult.rejectedOpen (b.timeout - (now - tf)), b)
  else
    let b1 :=
      if b.state = CircuitState.OPEN then { b with state := CircuitState.HALF_OPEN }
      else b
    match outcome with
    | FnOutcome.success =>
        let b2 :=
          if b1.state = CircuitState.HALF_OPEN then
            { b1 with
              failure_count := 0
              last_failure_time := none
              state := CircuitState.CLOSED }
          else b1
        (CallResult.ok, { b2 with last_success_time := some now })
    | FnOutcome.raise errName errStr =>
        if isQuotaError b1.expected_errors errName errStr then
          (CallResult.raised errName errStr, recordFailure b1 now)
        else
          (CallResult.raised errName errStr, b1)

/-- Folds a sequence of calls (time and protected-function outcome) through
the breaker, keeping only the evolving breaker state. -/
def runCalls (b : Breaker) : List (Rat × FnOutcome) → Breaker
  | [] => b
  | (t, o) :: rest => runCalls (call b t o).2 rest

/-- Turns a list of timed exceptions (time, error type name, error message)
into the corresponding call sequence. -/
def asQuotaCalls (evs : List (Rat × String × String)) : List (Rat × FnOutcome) :=
  evs.map (fun e => (e.1, FnOutcome.raise e.2.1 e.2.2))

/-- Concrete Open breaker whose timeout has elapsed by time 1000 (used by
the C9 counterexample). -/
def openTimedOutBreaker : Breaker :=
  { failure_threshold := 5, timeout := 300
    expected_errors := defaultExpectedErrors
    failure_count := 5, last_failure_time := some 0
    state := CircuitState.OPEN
    last_success_time := none }

end CircuitBreakerModel

namespace RateLimiterModel

/-- Embeds the mutable attributes of `RateLimiter` in `llm_client.py`. -/
structure RLState where
  requests_per_minute : Nat
  tokens_per_minute : Nat
  request_times : List Rat
  token_counts : List (Rat × Nat)
deriving DecidableEq, Repr

/-- Embeds `RateLimiter.__init__` (empty sliding windows). -/
def initRL (requests_per_minute tokens_per_minute : Nat) : RLState :=
  { requests_per_minute := requests_per_minute
    tokens_per_minute := tokens_per_minute
    request_times := []
    token_counts := [] }

/-- Second half of `RateLimiter.acquire`: the token-rate check and the final
recording of the request.  `rts`/`tcs` are the already-cleaned windows and
`now` the clock after any request-rate sleep.  Returns the new state, the
token-phase sleep amount and the final clock value. -/
def acquireTokenPhase (s : RLState) (rts : List Rat) (tcs : List (Rat × Nat))
    (now : Rat) (estimated : Nat) : RLState × Rat × Rat :=
  let tokensUsed := (tcs.map (fun p => p.2)).sum
  let step :=
    if s.tokens_per_minute < tokensUsed + estimated then
      match tcs.head? with
      | none => (now, (0 : Rat))
      | some p =>
          let st := 60 - (now - p.1)
          if 0 < st then (now + st, st) else (now, 0)
    else (now, 0)
  let now2 := step.1
  ({ s with
      request_times := rts ++ [now2]
      token_counts := if 0 < estimated then tcs ++ [(now2, estimated)] else tcs },
   step.2, now2)

/-- Embeds `RateLimiter.acquire`.  A call at wall-clock time `now` with token
estimate `estimated` either updates the windows (returning the new state, the
total time slept and the clock value after sleeping) or raises: with
`requests_per_minute = 0` the request-rate branch evaluates
`self.request_times[0]` on an empty list, an `IndexError`.  Sleeping is
modelled by advancing the clock by exactly the requested sleep time. -/
def acquire (s : RLState) (now : Rat) (estimated : Nat) :
    Except String (RLState × Rat × Rat) :=
  let oneMinuteAgo := now - 60
  let rts := s.request_times.filter (fun t => decide (oneMinuteAgo < t))
  let tcs := s.token_counts.filter (fun p => decide (oneMinuteAgo < p.1))
  if s.requests_per_minute ≤ rts.length then
    match rts.head? with
    | none => Except.error "IndexError: list index out of range"
    | some t0 =>
        let sleepTime := 60 - (now - t0)
        let now1 := if 0 < sleepTime then now + sleepTime else now
        let sl1 := if 0 < sleepTime then sleepTime else 0
        let r := acquireTokenPhase s rts tcs now1 estimated
        Except.ok (r.1, sl1 + r.2.1, r.2.2)
  else
    let r := acquireTokenPhase s rts tcs now estimated
    Except.ok (r.1, r.2.1, r.2.2)

/-- Folds a sequence of `acquire` calls (time and token estimate), summing the
total time slept; stops at the first raised error. -/
def runAcquires : RLState → Rat → List (Rat × Nat) → Except String (RLState × Rat)
  | s, acc, [] => Except.ok (s, acc)
  | s, acc, (t, e) :: rest =>
    match acquire s t e with
    | Except.error msg => Except.error msg
    | Except.ok (s1, sl, _) => runAcquires s1 (acc + sl) rest

end RateLimiterModel

namespace LLMClientModel

/-- Embeds the `TokenUsage` dataclass of `llm_client.py`. -/
structure TokenUsage where
  input_tokens : Nat
  output_tokens : Nat
deriving DecidableEq, Repr

/-- Embeds `TokenUsage.total_tokens`. -/
def TokenUsage.total_tokens (u : TokenUsage) : Nat :=
  u.input_tokens + u.output_tokens

/-- Embeds `BedrockLLMClient.estimate_tokens`: `len(text) // 4`. -/
def estimateTokens (text : String) : Nat := text.length / 4

/-- Embeds the non-retryable classification in `_invoke_internal`:
`"ValidationException" in error_name or "InvalidRequest" in error_name`. -/
def isValidationError (errName : String) : Bool :=
  strContains errName "ValidationException" || strContains errName "InvalidRequest"

/-- Behaviour of one `self.model.invoke(messages)` attempt: the model either
answers with some text or raises an exception with the given type name and
message. -/
inductive AttemptOutcome where
  | success (responseText : String)
  | raise (errName errStr : String)
deriving DecidableEq, Repr

/-- Observable outcome of `_invoke_internal`: the returned
`(response_text, usage)` pair, the client's running `total_usage` afterwards,
the backoff sleeps performed (in seconds, in order) and the number of model
attempts issued.  An `Except.error none` models the degenerate
`raise last_exception` with `last_exception is None` (only reachable with
`max_retries = 0`, where Python raises a `TypeError`). -/
structure InvokeOut where
  result : Except (Option (String × String)) (String × TokenUsage)
  totals : TokenUsage
  sleeps : List Nat
  attempts_made : Nat
deriving Repr

/-- Embeds the `for attempt in range(self.max_retries)` retry loop of
`BedrockLLMClient._invoke_internal`.  `inputTokens` is the pre-computed
input-token estimate (prompt plus optional system prompt); `outcomes n` is
what the model does on the n-th attempt; `fuel` counts the loop iterations
still available (`maxRetries - attempt`). -/
def invokeAux (inputTokens : Nat) (outcomes : Nat → AttemptOutcome)
    (maxRetries : Nat) :
    Nat → Nat → TokenUsage → Option (String × String) → List Nat → InvokeOut
  | 0, attempt, totals, lastExc, sleeps =>
      { result := Except.error lastExc
        totals := totals
        sleeps := sleeps
        attempts_made := attempt }
  | fuel + 1, attempt, totals, lastExc, sleeps =>
      match outcomes attempt with
      | AttemptOutcome.success text =>
          let usage : TokenUsage :=
            { input_tokens := inputTokens, output_tokens := estimateTokens text }
          { result := Except.ok (text, usage)
            totals :=
              { input_tokens := totals.input_tokens + usage.input_tokens
                output_tokens := totals.output_tokens + usage.output_tokens }
            sleeps := sleeps
            attempts_made := attempt + 1 }
      | AttemptOutcome.raise errName errStr =>
          if isValidationError errName then
            { result := Except.error (some (errName, errStr))
              totals := totals
              sleeps := sleeps
              attempts_made := attempt + 1 }
          else if attempt + 1 < maxRetries then
            invokeAux inputTokens outcomes maxRetries fuel (attempt + 1) totals
              (some (errName, errStr)) (sleeps ++ [2 ^ attempt])
          else
            { result := Except.error (some (errName, errStr))
              totals := totals
              sleeps := sleeps
              attempts_made := attempt + 1 }

/-- Backoff sleeps `2^a, 2^(a+1), ...` of length `k` (the sleeps performed by
`k` consecutive retried failures starting at attempt `a`). -/
def backoffList (a : Nat) : Nat → List Nat
  | 0 => []
  | k + 1 => 2 ^ a :: backoffList (a + 1) k

/-- An attempt-outcome sequence in which every attempt raises: attempt `j`
raises an exception with type name `en j` and message `es j`. -/
def raiseSeq (en es : Nat → String) : Nat → AttemptOutcome :=
  fun j => AttemptOutcome.raise (en j) (es j)

/-- Embeds `BedrockLLMClient._invoke_internal` (retry logic and running-usage
update; the rate-limiter call and file logging are modelled elsewhere /
side-effect free).  `totals` is the client's `total_usage` before the call. -/
def invokeInternal (prompt : String) (systemPrompt : Option String)
    (outcomes : Nat → AttemptOutcome) (maxRetries : Nat)
    (totals : TokenUsage) : InvokeOut :=
  let inputTokens :=
    estimateTokens prompt +
      (match systemPrompt with
       | some sp => estimateTokens sp
       | none => 0)
  invokeAux inputTokens outcomes maxRetries maxRetries 0 totals none []

/-- One event observed while iterating `self.model.stream(messages)`: either
the next chunk's text or an exception raised by the stream. -/
inductive StreamEvent where
  | chunk (text : String)
  | raise (errName errStr : String)
deriving DecidableEq, Repr

/-- Embeds the `for chunk in self.model.stream(messages)` accumulation loop of
`invoke_with_streaming`: concatenates chunk texts until the stream ends or
raises. -/
def streamLoop (acc : String) : List StreamEvent → Except (String × String) String
  | [] => Except.ok acc
  | StreamEvent.chunk text :: rest => streamLoop (acc ++ text) rest
  | StreamEvent.raise errName errStr :: _ => Except.error (errName, errStr)

/-- Embeds `BedrockLLMClient.invoke_with_streaming` (response accumulation and
running-usage update; the per-chunk callback has no effect on client state). -/
def invokeWithStreaming (prompt : String) (systemPrompt : Option String)
    (events : List StreamEvent) (totals : TokenUsage) :
    Except (String × String) (String × TokenUsage) × TokenUsage :=
  match streamLoop "" events with
  | Except.error e => (Except.error e, totals)
  | Except.ok fullResponse =>
      let inputTokens :=
        estimateTokens prompt +
          (match systemPrompt with
           | some sp => estimateTokens sp
           | none => 0)
      let usage : TokenUsage :=
        { input_tokens := inputTokens
          output_tokens := estimateTokens fullResponse }
      (Except.ok (fullResponse, usage),
       { input_tokens := totals.input_tokens + usage.input_tokens
         output_tokens := totals.output_tokens + usage.output_tokens })

end LLMClientModel

namespace TranscriptionParserModel

/-- Embeds the `TranscriptionSegment` dataclass of `transcription_parser.py`.
Times and confidences (Python floats) are modelled as rationals. -/
structure TranscriptionSegment where
  text : String
  start_time : Rat
  end_time : Rat
  speaker : Option String
  confidence : Rat
deriving DecidableEq, Repr

/-- Metadata attached to a chunk: `chunk_transcription` gives the single
chunk `{'is_single_chunk': True, 'original_tokens': n}` while `_create_chunk`
gives `{'num_segments': n, 'avg_confidence': q}`. -/
inductive ChunkMetadata where
  | single (original_tokens : Nat)
  | multi (num_segments : Nat) (avg_confidence : Rat)
deriving DecidableEq, Repr

/-- Embeds the `TranscriptionChunk` dataclass of `transcription_parser.py`. -/
structure TranscriptionChunk where
  chunk_id : Nat
  total_chunks : Nat
  text : String
  tokens : Nat
  segments : List TranscriptionSegment
  speakers : List String
  timestamp_range : Rat × Rat
  metadata : ChunkMetadata
deriving DecidableEq, Repr

/-- Embeds the configuration of `TranscriptionParser.__init__`.  The source
stores `overlap_tokens = int(max_tokens_per_chunk * 0.1)`; for the integer
configurations the code accepts this equals floor division by 10, which is
how `initParser` computes it. -/
structure Parser where
  max_tokens : Nat
  overlap_tokens : Nat
deriving DecidableEq, Repr

/-- Embeds `TranscriptionParser.__init__`. -/
def initParser (max_tokens_per_chunk : Nat) : Parser :=
  { max_tokens := max_tokens_per_chunk
    overlap_tokens := max_tokens_per_chunk / 10 }

/-- Embeds `TranscriptionParser.count_tokens`: `len(text) // 4`. -/
def countTokens (text : String) : Nat := text.length / 4

/-- Combined token estimate of a list of segments (the running sum
`sum(self.count_tokens(s.text) for s in segments)` used by the chunker). -/
def tokenSum (segs : List TranscriptionSegment) : Nat :=
  (segs.map (fun s => countTokens s.text)).sum

/-- Loop body of `_get_overlap_segments`: walks the segments in reverse,
stopping at the first one whose inclusion would push the running token count
past the target; `acc` is the overlap collected so far (in original order). -/
def overlapGo (target : Nat) :
    List TranscriptionSegment → Nat → List TranscriptionSegment →
      List TranscriptionSegment
  | [], _, acc => acc
  | s :: rest, tokens, acc =>
      if target < tokens + countTokens s.text then acc
      else overlapGo target rest (tokens + countTokens s.text) (s :: acc)

/-- Embeds `TranscriptionParser._get_overlap_segments`. -/
def getOverlapSegments (target : Nat) (segments : List TranscriptionSegment) :
    List TranscriptionSegment :=
  overlapGo target segments.reverse 0 []

/-- Embeds `TranscriptionParser._create_chunk`.  The source indexes
`segments[0]` / `segments[-1]` (only ever called with a non-empty list); the
model totalises those with default `0`.  `list(set(...))` for the chunk
speakers is modelled as first-occurrence deduplication (the set's iteration
order is not observable by any claim).  The `speakers` parameter is accepted
and ignored exactly as in the source. -/
def createChunk (chunk_id total_chunks : Nat)
    (segments : List TranscriptionSegment) (speakers : List String) :
    TranscriptionChunk :=
  let text := spaceJoin (segments.map (fun s => s.text))
  { chunk_id := chunk_id
    total_chunks := total_chunks
    text := text
    tokens := countTokens text
    segments := segments
    speakers := (segments.filterMap (fun s => s.speaker)).dedup
    timestamp_range :=
      ((segments.head?.map (fun s => s.start_time)).getD 0,
       (segments.getLast?.map (fun s => s.end_time)).getD 0)
    metadata :=
      ChunkMetadata.multi segments.length
        (if segments.length = 0 then 0
         else ((segments.map (fun s => s.confidence)).sum) / segments.length) }

/-- Embeds the three `should_break` conditions of `_adaptive_chunking`.
`prev` is `segments[i-1]` when `i > 0`.  The float literals `0.8` and `0.5`
of the source are modelled as the rationals `4/5` and `1/2`. -/
def shouldBreak (p : Parser) (target : Rat)
    (prev : Option TranscriptionSegment) (curTokens : Nat)
    (seg : TranscriptionSegment) : Bool :=
  let segTokens := countTokens seg.text
  let c1 : Bool := decide (p.max_tokens < curTokens + segTokens)
  let c2 : Bool :=
    match prev with
    | none => false
    | some pr =>
        decide (target * (4 / 5) < (curTokens : Rat)) &&
          decide (seg.speaker ≠ pr.speaker)
  let c3 : Bool :=
    match prev with
    | none => false
    | some pr =>
        decide ((5 : Rat) < seg.start_time - pr.end_time) &&
          decide (target * (1 / 2) < (curTokens : Rat))
  c1 || c2 || c3

/-- Mutable loop state of `_adaptive_chunking`: the chunks emitted so far,
the accumulating segment buffer, its running token sum, and the next chunk
id. -/
structure ChunkAcc where
  chunks : List TranscriptionChunk
  cur : List TranscriptionSegment
  curTokens : Nat
  chunkId : Nat
deriving Repr

/-- One iteration of the `for i, segment in enumerate(segments)` loop of
`_adaptive_chunking`: possibly close the current chunk (seeding the next
buffer with the overlap), then append the segment to the buffer. -/
def chunkStep (p : Parser) (numChunks : Nat) (target : Rat)
    (speakers : List String) (prev : Option TranscriptionSegment)
    (acc : ChunkAcc) (seg : TranscriptionSegment) : ChunkAcc :=
  let segTokens := countTokens seg.text
  let acc1 :=
    if shouldBreak p target prev acc.curTokens seg = true ∧ acc.cur ≠ [] then
      let ov := getOverlapSegments p.overlap_tokens acc.cur
      { chunks := acc.chunks ++ [createChunk acc.chunkId numChunks acc.cur speakers]
        cur := ov
        curTokens := tokenSum ov
        chunkId := acc.chunkId + 1 }
    else acc
  { acc1 with cur := acc1.cur ++ [seg], curTokens := acc1.curTokens + segTokens }

/-- The segment walk of `_adaptive_chunking`, threading the previous segment
(for the speaker-change and pause conditions) through the loop. -/
def chunkLoop (p : Parser) (numChunks : Nat) (target : Rat)
    (speakers : List String) :
    Option TranscriptionSegment → ChunkAcc → List TranscriptionSegment →
      ChunkAcc
  | _, acc, [] => acc
  | prev, acc, seg :: rest =>
      chunkLoop p numChunks target speakers (some seg)
        (chunkStep p numChunks target speakers prev acc seg) rest

/-- Models `math.ceil(total_tokens / self.max_tokens)` on the integer inputs
the source supplies. -/
def ceilDiv (a b : Nat) : Nat := (a + b - 1) / b

/-- Embeds `TranscriptionParser._adaptive_chunking`. -/
def adaptiveChunking (p : Parser) (segments : List TranscriptionSegment)
    (speakers : List String) (totalTokens : Nat) : List TranscriptionChunk :=
  let numChunks := ceilDiv totalTokens p.max_tokens
  let target : Rat := ((totalTokens / numChunks : Nat) : Rat)
  let r := chunkLoop p numChunks target speakers none
    { chunks := [], cur := [], curTokens := 0, chunkId := 0 } segments
  if r.cur = [] then r.chunks
  else r.chunks ++ [createChunk r.chunkId numChunks r.cur speakers]

/-- Embeds the `parsed_data` dictionary produced by `parse_transcribe_json`. -/
structure ParsedData where
  full_text : String
  segments : List TranscriptionSegment
  speakers : List String
deriving DecidableEq, Repr

/-- Embeds `TranscriptionParser.chunk_transcription`. -/
def chunkTranscription (p : Parser) (parsed : ParsedData) :
    List TranscriptionChunk :=
  let totalTokens := countTokens parsed.full_text
  if totalTokens ≤ p.max_tokens then
    [{ chunk_id := 0
       total_chunks := 1
       text := parsed.full_text
       tokens := totalTokens
       segments := parsed.segments
       speakers := parsed.speakers
       timestamp_range :=
         ((parsed.segments.head?.map (fun s => s.start_time)).getD 0,
          (parsed.segments.getLast?.map (fun s => s.end_time)).getD 0)
       metadata := ChunkMetadata.single totalTokens }]
  else adaptiveChunking p parsed.segments parsed.speakers totalTokens

/-- Embeds one element of `results['items']` in the Transcribe JSON, with the
defaults the source applies (`item.get('type', 'pronunciation')`,
`alternatives[0].get('content', '')`, `float(item.get('start_time', 0))`,
`float(...confidence..., 0)`). -/
structure TItem where
  itemType : String
  content : String
  start_time : Rat
  end_time : Rat
  confidence : Rat
deriving DecidableEq, Repr

/-- Embeds one element of `results['speaker_labels']['segments']`: its label
and the start times of its inner items (the only fields the source reads). -/
structure SpeakerSegment where
  speaker_label : String
  item_starts : List Rat
deriving DecidableEq, Repr

/-- Embeds the `results` section of a Transcribe JSON: the transcript strings
of `results['transcripts']`, the token items, and the speaker-label segments
(an absent `speaker_labels` key is the empty list). -/
structure TranscribeResults where
  transcripts : List String
  items : List TItem
  speaker_segments : List SpeakerSegment
deriving DecidableEq, Repr

/-- Embeds `TranscriptionParser._build_speaker_map`: the insertion sequence
of the Python dict, as an association list. -/
def buildSpeakerMap (rs : TranscribeResults) : List (Rat × String) :=
  (rs.speaker_segments.map
    (fun seg => seg.item_starts.map (fun t => (t, seg.speaker_label)))).flatten

/-- Dictionary lookup `speaker_map.get(start_time, None)`: later insertions
overwrite earlier ones. -/
def speakerMapGet (m : List (Rat × String)) (k : Rat) : Option String :=
  m.foldl (fun acc p => if p.1 = k then some p.2 else acc) none

/-- Loop state of `_extract_segments`: the emitted segments, the accumulating
word list, its start time and speaker, and the last pronunciation item's end
time (the Python local `end_time`, initialised here to `0`, which the source
only reads after at least one pronunciation item). -/
structure ExtractState where
  segments : List TranscriptionSegment
  current_segment : List String
  current_start : Option Rat
  current_speaker : Option String
  lastEnd : Rat
deriving Repr

/-- One iteration of the item walk in `_extract_segments`. -/
def extractStep (m : List (Rat × String)) (st : ExtractState) (item : TItem) :
    ExtractState :=
  if item.itemType = "pronunciation" then
    let speaker := speakerMapGet m item.start_time
    let st1 :=
      if st.current_speaker ≠ none ∧ speaker ≠ st.current_speaker then
        let flushed :=
          if st.current_segment ≠ [] then
            { st with
              segments := st.segments ++
                [{ text := spaceJoin st.current_segment
                   start_time := st.current_start.getD 0
                   end_time := item.end_time
                   speaker := st.current_speaker
                   confidence := item.confidence }] }
          else st
        { flushed with current_segment := [], current_start := none }
      else st
    let st2 :=
      if st1.current_start = none then
        { st1 with current_start := some item.start_time }
      else st1
    { st2 with
      current_segment := st2.current_segment ++ [item.content]
      current_speaker := speaker
      lastEnd := item.end_time }
  else if item.itemType = "punctuation" then
    match st.current_segment.getLast? with
    | none => st
    | some lastWord =>
        { st with
          current_segment := st.current_segment.dropLast ++ [lastWord ++ item.content] }
  else st

/-- Embeds `TranscriptionParser._extract_segments`. -/
def extractSegments (rs : TranscribeResults) : List TranscriptionSegment :=
  let m := buildSpeakerMap rs
  let final := rs.items.foldl (extractStep m)
    { segments := [], current_segment := [], current_start := none
      current_speaker := none, lastEnd := 0 }
  if final.current_segment ≠ [] then
    final.segments ++
      [{ text := spaceJoin final.current_segment
         start_time := final.current_start.getD 0
         end_time := final.lastEnd
         speaker := final.current_speaker
         confidence := 0 }]
  else final.segments

/-- Embeds `TranscriptionParser._extract_full_text`. -/
def extractFullText (rs : TranscribeResults) : String :=
  (rs.transcripts.head?).getD ""

/-- Insertion step for `sorted(...)` over strings. -/
def insertSorted (x : String) : List String → List String
  | [] => [x]
  | y :: ys => if x ≤ y then x :: y :: ys else y :: insertSorted x ys

/-- Models Python `sorted(xs)` on strings. -/
def sortStrings (l : List String) : List String := l.foldr insertSorted []

/-- Embeds `TranscriptionParser._extract_speakers`:
`sorted(list(set(non-null speakers)))`. -/
def extractSpeakers (segs : List TranscriptionSegment) : List String :=
  sortStrings (segs.filterMap (fun s => s.speaker)).dedup

/-- Embeds `TranscriptionParser.parse_transcribe_json` on an input whose
`results` key is present (the validated shape; metadata extraction is not
modelled, no claim reads it). -/
def parseTranscribeJson (rs : TranscribeResults) : ParsedData :=
  let segments := extractSegments rs
  { full_text := extractFullText rs
    segments := segments
    speakers := extractSpeakers segments }

/-- Per-chunk lists of non-overlap segments for every chunk after the first:
each chunk drops the overlap recomputed (by `_get_overlap_segments`) from its
predecessor's segment list.  This is the removal step named by the
reconstruction claim. -/
def newSegsFrom (p : Parser) (prevSegs : List TranscriptionSegment) :
    List TranscriptionChunk → List (List TranscriptionSegment)
  | [] => []
  | c :: rest =>
      c.segments.drop (getOverlapSegments p.overlap_tokens prevSegs).length ::
        newSegsFrom p c.segments rest

/-- Per-chunk lists of non-overlap segments: the first chunk keeps all its
segments, later chunks drop their overlap prefixes. -/
def chunkNewSegments (p : Parser) :
    List TranscriptionChunk → List (List TranscriptionSegment)
  | [] => []
  | c :: rest => c.segments :: newSegsFrom p c.segments rest

/-- The reconstruction named by the claim: remove each chunk's overlap,
take each chunk's remaining text, and concatenate in chunk order
(space-separated, as the chunk texts themselves are space-joined). -/
def reconstructText (p : Parser) (chunks : List TranscriptionChunk) : String :=
  spaceJoin ((chunkNewSegments p chunks).map
    (fun segs => spaceJoin (segs.map (fun s => s.text))))

/-- Last segment list among `prevSegs` and the chunks of `l` (the predecessor
whose overlap the next appended chunk would drop). -/
def lastSegsD (prevSegs : List TranscriptionSegment)
    (l : List TranscriptionChunk) : List TranscriptionSegment :=
  match l.getLast? with
  | none => prevSegs
  | some c => c.segments

/-- The non-overlap segments of the chunker's current buffer: everything
after the overlap copied from the last emitted chunk (the whole buffer when
no chunk has been emitted yet). -/
def curNew (p : Parser) (acc : ChunkAcc) : List TranscriptionSegment :=
  match acc.chunks.getLast? with
  | none => acc.cur
  | some lc => acc.cur.drop (getOverlapSegments p.overlap_tokens lc.segments).length

/-- Adjacent chunks are chained: every chunk after the first is its
predecessor's overlap followed by its own (recoverable-by-drop) new
segments. -/
def ChunkChain (p : Parser) : List TranscriptionChunk → Prop
  | [] => True
  | [_] => True
  | c :: c2 :: rest =>
      (getOverlapSegments p.overlap_tokens c.segments ++
        c2.segments.drop (getOverlapSegments p.overlap_tokens c.segments).length
          = c2.segments) ∧
      ChunkChain p (c2 :: rest)

/-- Invariant of the `_adaptive_chunking` loop relating the processed
segments to the emitted chunks and the current buffer. -/
def LoopInv (p : Parser) (processed : List TranscriptionSegment)
    (acc : ChunkAcc) : Prop :=
  (chunkNewSegments p acc.chunks).flatten ++ curNew p acc = processed ∧
  (∀ s ∈ chunkNewSegments p acc.chunks, s ≠ []) ∧
  (match acc.chunks.getLast? with
   | none => acc.chunks = []
   | some lc =>
       getOverlapSegments p.overlap_tokens lc.segments ++ curNew p acc = acc.cur ∧
       curNew p acc ≠ []) ∧
  ChunkChain p acc.chunks

/-- Models Python `a % b` (sign of the divisor) on rationals. -/
def pymod (a b : Rat) : Rat := a - b * (⌊a / b⌋ : Int)

/-- Zero-padded rendering `f-string {n:02d}`. -/
def pad2 (n : Int) : String :=
  if 0 ≤ n ∧ n < 10 then "0" ++ toString n else toString n

/-- Embeds `TranscriptionParser._format_timestamp` (all three components are
mathematically exact floor computations on the nonnegative times the source
handles). -/
def formatTimestamp (seconds : Rat) : String :=
  let hours : Int := ⌊seconds / 3600⌋
  let minutes : Int := ⌊pymod seconds 3600 / 60⌋
  let secs : Int := ⌊pymod seconds 60⌋
  pad2 hours ++ ":" ++ pad2 minutes ++ ":" ++ pad2 secs

/-- Default chunk value (used only to totalise list indexing in witness
statements). -/
def defaultChunk : TranscriptionChunk :=
  { chunk_id := 0, total_chunks := 0, text := "", tokens := 0
    segments := [], speakers := [], timestamp_range := (0, 0)
    metadata := ChunkMetadata.single 0 }

/-- Concrete Transcribe result whose transcript is consistent with its one
44-character item: its token estimate (11) exceeds a 5-token chunk limit, so
the multi-chunk path runs, but the single segment admits no split. -/
def rs10 : TranscribeResults :=
  { transcripts := ["aaaaaaaaaaaaaaaaaaaaaaaaaaaaaaaaaaaaaaaaaaaa"]
    items := [{ itemType := "pronunciation"
                content := "aaaaaaaaaaaaaaaaaaaaaaaaaaaaaaaaaaaaaaaaaaaa"
                start_time := 0, end_time := 1, confidence := 0 }]
    speaker_segments := [] }

/-- Concrete Transcribe result whose transcript field disagrees with the
text carried by its items, and whose two speaker-labelled 12-character
segments force a two-chunk split under a 5-token limit. -/
def rs3 : TranscribeResults :=
  { transcripts := ["cccccccccccccccccccccccccccc"]
    items := [
      { itemType := "pronunciation", content := "aaaaaaaaaaaa"
        start_time := 0, end_time := 1, confidence := 0 },
      { itemType := "pronunciation", content := "bbbbbbbbbbbb"
        start_time := 10, end_time := 11, confidence := 0 }]
    speaker_segments := [
      { speaker_label := "spk_0", item_starts := [0] },
      { speaker_label := "spk_1", item_starts := [10] }] }

/-- Concrete two-segment list (2 tokens and 1 token) for the C7 witness. -/
def c7segs : List TranscriptionSegment :=
  [{ text := "aaaaaaaa", start_time := 0, end_time := 1
     speaker := none, confidence := 0 },
   { text := "bbbb", start_time := 1, end_time := 2
     speaker := none, confidence := 0 }]

/-- Embeds `TranscriptionParser.format_with_timestamps`. -/
def formatWithTimestamps (segments : List TranscriptionSegment)
    (includeSpeakers : Bool) : String :=
  joinWith "\n" (segments.map (fun s =>
    match includeSpeakers, s.speaker with
    | true, some sp =>
        "[" ++ formatTimestamp s.start_time ++ "] " ++ sp ++ ": " ++ s.text
    | _, _ =>
        "[" ++ formatTimestamp s.start_time ++ "] " ++ s.text))

end TranscriptionParserModel

namespace DocumentGeneratorModel

open LLMClientModel TranscriptionParserModel

/-- Embeds the `status` field of `StageResult` in `document_generator.py`. -/
inductive StageStatus where
  | success
  | failed
deriving DecidableEq, Repr

/-- Embeds the `StageResult` dataclass (wall-clock durations are not
modelled; no claim reads them).  Structured stage payloads (the parsed JSON
of stages 2 and 3) are modelled as their serialised text: the pipeline only
threads them through opaquely. -/
structure StageResult where
  stage_id : Nat
  stage_name : String
  output : Option String
  tokens_used : TokenUsage
  status : StageStatus
  error : Option String
deriving Repr

/-- Outcome of one model call made by a pipeline stage (through
`invoke_with_json_output` for stages 2 and 3 and `invoke` for stages 4 and
5): either the response and its token usage, or the message of the raised
exception. -/
abbrev ModelCall := Except String (String × TokenUsage)

/-- Outcomes of the four model calls issued by the single-chunk pipeline
(`_process_single_chunk` runs stages 2..5 once each). -/
structure PipelineOracle where
  stage2 : ModelCall
  stage3 : ModelCall
  stage4 : ModelCall
  stage5 : ModelCall
deriving Repr

/-- Shared `try/except` skeleton of `_stage_2_extract_technical_content`
through `_stage_5_write_content`: a successful model call yields a `success`
result carrying the response and usage; a raised exception yields a `failed`
result with `output = None` and zero usage. -/
def runModelStage (stage_id : Nat) (stage_name : String) (callOutcome : ModelCall) :
    StageResult :=
  match callOutcome with
  | Except.ok (response, usage) =>
      { stage_id := stage_id, stage_name := stage_name
        output := some response, tokens_used := usage
        status := StageStatus.success, error := none }
  | Except.error e =>
      { stage_id := stage_id, stage_name := stage_name
        output := none, tokens_used := { input_tokens := 0, output_tokens := 0 }
        status := StageStatus.failed, error := some e }

/-- Embeds `_stage_1_clean_transcription`: deterministic formatting of the
segments, no model call, always `success` (the formatting is total). -/
def stage1CleanTranscription (chunk : TranscriptionChunk) : StageResult :=
  { stage_id := 1
    stage_name := "Transcription Cleaning"
    output := some (formatWithTimestamps chunk.segments true)
    tokens_used := { input_tokens := 0, output_tokens := 0 }
    status := StageStatus.success
    error := none }

/-- Embeds `_stage_5_write_content`.  The outline (possibly `None`, rendered
into the prompt as the literal string `None`) is interpolated into the
prompt; the stage proceeds with the model call regardless of the outline
value, exactly as the source does. -/
def stage5WriteContent (o : PipelineOracle) (documentOutline : Option String) :
    StageResult :=
  runModelStage 5 "Content Writing" o.stage5

/-- Embeds `DocumentGenerator._process_single_chunk`: runs stages 1..5 in
order, feeding each stage the previous stage's `output` field. -/
def processSingleChunk (o : PipelineOracle) (chunk : TranscriptionChunk) :
    List StageResult :=
  let s1 := stage1CleanTranscription chunk
  let s2 := runModelStage 2 "Technical Content Extraction" o.stage2
  let s3 := runModelStage 3 "Solution Mapping" o.stage3
  let s4 := runModelStage 4 "Document Structuring" o.stage4
  let s5 := stage5WriteContent o s4.output
  [s1, s2, s3, s4, s5]

/-- One `s3.put_object` call recorded by the model (bucket and key; the body
is the value whose upload the claim is about). -/
structure PutObject where
  bucket : String
  key : String
deriving DecidableEq, Repr

/-- Embeds `_stage_6_generate_outputs`.  With `markdown_content = None` the
expression `markdown_content.encode('utf-8')` raises an `AttributeError`
before the first `put_object` executes, so nothing is written; otherwise the
markdown and the DOCX rendering are uploaded in that order. -/
def stage6GenerateOutputs (execution_id : String) (markdown : Option String)
    (output_bucket : String) :
    List PutObject × Except String (String × String) :=
  match markdown with
  | none => ([], Except.error "AttributeError: NoneType has no attribute encode")
  | some _ =>
      let mdKey := execution_id ++ "/document.md"
      let docxKey := execution_id ++ "/document.docx"
      ([{ bucket := output_bucket, key := mdKey },
        { bucket := output_bucket, key := docxKey }],
       Except.ok ("s3://" ++ output_bucket ++ "/" ++ mdKey,
                  "s3://" ++ output_bucket ++ "/" ++ docxKey))

/-- Final result of `generate_document` (the fields the claims read). -/
structure DocumentGenerationResult where
  markdown_content : String
  markdown_s3_uri : String
  docx_s3_uri : String
  stages : List StageResult
  chunks_processed : Nat
deriving Repr

/-- Embeds `DocumentGenerator.generate_document` from the point where the
parsed transcription has been chunked into a single chunk: run the stage
pipeline, take `stage_results[-1]` as the final markdown, run stage 6, and
either return the assembled result or re-raise the stage-6 exception.  The
first component lists the storage writes that actually happened. -/
def generateDocumentSingleChunk (o : PipelineOracle) (execution_id : String)
    (chunk : TranscriptionChunk) (output_bucket : String) :
    List PutObject × Except String DocumentGenerationResult :=
  let stageResults := processSingleChunk o chunk
  match stageResults.getLast? with
  | none => ([], Except.error "IndexError: list index out of range")
  | some finalStage =>
      match stage6GenerateOutputs execution_id finalStage.output output_bucket with
      | (puts, Except.error e) => (puts, Except.error e)
      | (puts, Except.ok (mdUri, docxUri)) =>
          (puts,
           Except.ok
             { markdown_content := finalStage.output.getD ""
               markdown_s3_uri := mdUri
               docx_s3_uri := docxUri
               stages := stageResults ++
                 [{ stage_id := 6, stage_name := "Output Generation"
                    output := some (mdUri ++ " " ++ docxUri)
                    tokens_used := { input_tokens := 0, output_tokens := 0 }
                    status := StageStatus.success, error := none }]
               chunks_processed := 1 })

/-- Parameter names accepted by `DocumentGenerator.__init__`
(document_generator.py, lines 77-95). -/
def documentGeneratorInitParams : List String :=
  ["llm_client", "parser", "s3_client"]

/-- Keyword arguments `main.py` passes when constructing the
`DocumentGenerator` (main.py, lines 259-264). -/
def mainDocumentGeneratorKwargs : List String :=
  ["llm_client", "parser", "s3_client", "max_output_tokens"]

/-- The only per-stage output-token setting in `document_generator.py`:
`_stage_5_write_content` sets `model_kwargs["max_tokens"] = 8192`
(line 612), independently of any configured ceiling. -/
def stage5MaxTokensOverride : Nat := 8192

/-- Default of the `MAX_OUTPUT_TOKENS` environment variable in
`main.py` (`65536  # 64K default`). -/
def defaultMaxOutputTokens : Nat := 65536

/-- Modelled from the spec: the claimed stage-5 output-token budget is the
whole configured ceiling (`stage5 == M`).  No corresponding allocation code
exists in `document_generator.py`. -/
def specStage5Budget (M : Nat) : Nat := M


/-- Concrete single chunk used by the C4 scenario theorems. -/
def trivialChunk : TranscriptionChunk :=
  { chunk_id := 0, total_chunks := 1, text := "t", tokens := 0
    segments := [], speakers := [], timestamp_range := (0, 0)
    metadata := ChunkMetadata.single 0 }

/-- Concrete model-call outcomes in which stage 4 fails (so stage 5 receives
a null outline) but the stage-5 model call itself succeeds. -/
def nullStage4Oracle : PipelineOracle :=
  { stage2 := Except.ok ("tech", { input_tokens := 1, output_tokens := 1 })
    stage3 := Except.ok ("map", { input_tokens := 1, output_tokens := 1 })
    stage4 := Except.error "ThrottlingException"
    stage5 := Except.ok ("# Doc", { input_tokens := 1, output_tokens := 1 }) }

/-- Concrete model-call outcomes in which only stage 5 fails. -/
def stage5FailsOracle : PipelineOracle :=
  { stage2 := Except.ok ("tech", { input_tokens := 1, output_tokens := 1 })
    stage3 := Except.ok ("map", { input_tokens := 1, output_tokens := 1 })
    stage4 := Except.ok ("outline", { input_tokens := 1, output_tokens := 1 })
    stage5 := Except.error "ThrottlingException" }

end DocumentGeneratorModel

namespace LLMClientModel

/-- Stepping lemma for the retry loop: a run of consecutive non-validation
failures is skipped, sleeping `2^attempt` seconds after each failed attempt
and remembering the last exception. -/
theorem invokeAux_skip_failures (inT : Nat) (en es : Nat → String)
    (maxR : Nat) :
    ∀ (steps attempt : Nat) (totals : TokenUsage)
      (lastExc : Option (String × String)) (sleeps : List Nat),
      attempt + steps < maxR →
      (∀ j, attempt ≤ j → j < attempt + steps → isValidationError (en j) = false) →
      invokeAux inT (raiseSeq en es) maxR (maxR - attempt) attempt totals
          lastExc sleeps =
        invokeAux inT (raiseSeq en es) maxR (maxR - (attempt + steps))
          (attempt + steps) totals
          (if steps = 0 then lastExc
           else some (en (attempt + steps - 1), es (attempt + steps - 1)))
          (sleeps ++ backoffList attempt steps) := by
  intro steps
  induction steps with
  | zero =>
      intro attempt totals lastExc sleeps _ _
      simp [backoffList]
  | succ steps ih =>
      intro attempt totals lastExc sleeps hlt hval
      have hfuel : maxR - attempt = (maxR - (attempt + 1)) + 1 := by omega
      rw [hfuel]
      have hv0 : isValidationError (en attempt) = false :=
        hval attempt (Nat.le_refl _) (by omega)
      have hnext : attempt + 1 < maxR := by omega
      simp only [invokeAux, raiseSeq, hv0, Bool.false_eq_true, if_false,
        hnext, if_true]
      have := ih (attempt + 1) totals (some (en attempt, es attempt))
        (sleeps ++ [2 ^ attempt]) (by omega)
        (fun j h1 h2 => hval j (by omega) (by omega))
      rw [this]
      have hidx : attempt + 1 + steps = attempt + (steps + 1) := by omega
      have hS : (sleeps ++ [2 ^ attempt]) ++ backoffList (attempt + 1) steps
          = sleeps ++ backoffList attempt (steps + 1) := by
        rw [List.append_assoc]
        simp [backoffList]
      rw [hidx, hS]
      cases steps with
      | zero => simp
      | succ s => simp

/-- C5: during `_invoke_internal`, a validation / malformed-request error
(type name containing `ValidationException` or `InvalidRequest`) propagates
immediately with no further attempt, while any other error is retried with a
`2^attempt`-second backoff sleep after each failed attempt until
`max_retries` attempts have been issued, after which the final failure
propagates.  Stated over an arbitrary sequence of raised errors
(`raiseSeq en es` raises an error named `en j` on attempt `j`). -/
theorem C5_retry_classification :
    (∀ (prompt : String) (systemPrompt : Option String) (en es : Nat → String)
       (maxR k : Nat) (totals : TokenUsage),
       k < maxR →
       (∀ j, j < k → isValidationError (en j) = false) →
       isValidationError (en k) = true →
       invokeInternal prompt systemPrompt (raiseSeq en es) maxR totals =
         { result := Except.error (some (en k, es k)), totals := totals
           sleeps := backoffList 0 k, attempts_made := k + 1 }) ∧
    (∀ (prompt : String) (systemPrompt : Option String) (en es : Nat → String)
       (maxR : Nat) (totals : TokenUsage),
       1 ≤ maxR →
       (∀ j, j < maxR → isValidationError (en j) = false) →
       invokeInternal prompt systemPrompt (raiseSeq en es) maxR totals =
         { result := Except.error (some (en (maxR - 1), es (maxR - 1)))
           totals := totals
           sleeps := backoffList 0 (maxR - 1), attempts_made := maxR }) := by
  constructor
  · intro prompt systemPrompt en es maxR k totals hk hpre hval
    have hskip := invokeAux_skip_failures
      (estimateTokens prompt +
        match systemPrompt with
        | some sp => estimateTokens sp
        | none => 0) en es maxR k 0 totals none []
      (by omega) (fun j h1 h2 => hpre j (by omega))
    rw [Nat.sub_zero, Nat.zero_add] at hskip
    simp only [invokeInternal]
    rw [hskip]
    have hfuel : maxR - k = (maxR - (k + 1)) + 1 := by omega
    rw [hfuel]
    simp [invokeAux, raiseSeq, hval]
  · intro prompt systemPrompt en es maxR totals hmax hpre
    have hskip := invokeAux_skip_failures
      (estimateTokens prompt +
        match systemPrompt with
        | some sp => estimateTokens sp
        | none => 0) en es maxR (maxR - 1) 0 totals none []
      (by omega) (fun j h1 h2 => hpre j (by omega))
    rw [Nat.sub_zero, Nat.zero_add] at hskip
    simp only [invokeInternal]
    rw [hskip]
    have hfuel : maxR - (maxR - 1) = 1 := by omega
    rw [hfuel]
    have hv : isValidationError (en (maxR - 1)) = false :=
      hpre (maxR - 1) (by omega)
    have hstop : ¬(maxR - 1 + 1 < maxR) := by omega
    simp only [invokeAux, raiseSeq, hv, Bool.false_eq_true, if_false, hstop,
      if_true]
    have hm : maxR - 1 + 1 = maxR := by omega
    rw [hm]
    simp

/-- C5 (witness): concrete runs of both halves — a validation error at
attempt 1 stops after 2 attempts with one 1-second sleep, and three
throttling failures with `max_retries = 3` exhaust the attempts with sleeps
of 1 and 2 seconds before the final error propagates. -/
theorem C5_retry_classification_witness :
    invokeInternal "p" none
        (raiseSeq
          (fun j => if j = 0 then "ThrottlingException" else "ValidationException")
          (fun _ => "m")) 3
        { input_tokens := 0, output_tokens := 0 } =
      { result := Except.error (some ("ValidationException", "m"))
        totals := { input_tokens := 0, output_tokens := 0 }
        sleeps := [1], attempts_made := 2 } ∧
    invokeInternal "p" none
        (raiseSeq (fun _ => "ThrottlingException") (fun _ => "m")) 3
        { input_tokens := 0, output_tokens := 0 } =
      { result := Except.error (some ("ThrottlingException", "m"))
        totals := { input_tokens := 0, output_tokens := 0 }
        sleeps := [1, 2], attempts_made := 3 } := by
  constructor
  · have h := C5_retry_classification.1 "p" none
      (fun j => if j = 0 then "ThrottlingException" else "ValidationException")
      (fun _ => "m") 3 1 { input_tokens := 0, output_tokens := 0 }
      (by decide) (by decide) (by decide)
    simpa [backoffList] using h
  · have h := C5_retry_classification.2 "p" none
      (fun _ => "ThrottlingException") (fun _ => "m") 3
      { input_tokens := 0, output_tokens := 0 } (by decide) (by decide)
    simpa [backoffList] using h

end LLMClientModel

namespace CircuitBreakerModel

/-- Executing the protected call from a Closed breaker on a quota-classified
failure records the failure and re-raises. -/
theorem call_closed_quota (b : Breaker) (t : Rat) (n m : String)
    (hstate : b.state = CircuitState.CLOSED)
    (hq : isQuotaError b.expected_errors n m = true) :
    call b t (FnOutcome.raise n m) =
      (CallResult.raised n m, recordFailure b t) := by
  unfold call
  rw [if_neg (by simp [hstate])]
  simp [hstate, hq]

/-- Folding quota-classified failures through a Closed breaker counts every
failure, and the state is Open exactly when the threshold has been reached
by a nonempty failure sequence. -/
theorem runCalls_closed_quota :
    ∀ (evs : List (Rat × String × String)) (b : Breaker),
      b.state = CircuitState.CLOSED →
      (∀ e ∈ evs, isQuotaError b.expected_errors e.2.1 e.2.2 = true) →
      b.failure_count + evs.length ≤ b.failure_threshold →
      (runCalls b (asQuotaCalls evs)).failure_count =
          b.failure_count + evs.length ∧
      (runCalls b (asQuotaCalls evs)).state =
        (if evs.length = 0 then CircuitState.CLOSED
         else if b.failure_threshold ≤ b.failure_count + evs.length then
           CircuitState.OPEN
         else CircuitState.CLOSED) := by
  intro evs
  induction evs with
  | nil =>
      intro b hstate _ _
      simpa [asQuotaCalls, runCalls] using hstate
  | cons e rest ih =>
      intro b hstate hq hle
      have hcall := call_closed_quota b e.1 e.2.1 e.2.2 hstate
        (hq e (List.mem_cons_self e rest))
      have hstep : runCalls b (asQuotaCalls (e :: rest)) =
          runCalls (recordFailure b e.1) (asQuotaCalls rest) := by
        simp [asQuotaCalls, runCalls, hcall]
      rw [hstep]
      by_cases hth : b.failure_threshold ≤ b.failure_count + 1
      · have hrest : rest = [] := by
          have := hle
          simp only [List.length_cons] at this
          have : rest.length = 0 := by omega
          exact List.eq_nil_of_length_eq_zero this
        subst hrest
        simp [asQuotaCalls, runCalls, recordFailure, hth]
      · have hstate2 : (recordFailure b e.1).state = CircuitState.CLOSED := by
          simp [recordFailure, hth, hstate]
        have hq2 : ∀ x ∈ rest,
            isQuotaError (recordFailure b e.1).expected_errors x.2.1 x.2.2 =
              true := by
          intro x hx
          simpa [recordFailure] using hq x (List.mem_cons_of_mem e hx)
        have hle2 : (recordFailure b e.1).failure_count + rest.length ≤
            (recordFailure b e.1).failure_threshold := by
          simp only [recordFailure, List.length_cons] at hle ⊢
          omega
        have hres := ih (recordFailure b e.1) hstate2 hq2 hle2
        rcases hres with ⟨hfc, hst⟩
        constructor
        · rw [hfc]
          simp only [recordFailure, List.length_cons]
          omega
        · rw [hst]
          simp only [recordFailure, List.length_cons]
          by_cases h0 : rest.length = 0
          · simp [h0, hth]
          · have h1 : b.failure_count + 1 + rest.length =
                b.failure_count + (rest.length + 1) := by omega
            simp [h0, h1]

/-- C1: the circuit breaker follows the specified state machine.  (1) From a
fresh breaker, a sequence of exactly `failure_threshold` quota-classified
failures leaves the breaker Open with `failure_count = failure_threshold`,
and every proper prefix of that sequence leaves it Closed (so the breaker
opens after exactly the threshold).  (2) While Open with less than `timeout`
elapsed since the last recorded failure, any call is rejected immediately
with a `CircuitBreakerOpen` carrying the remaining wait time and no state
change.  (3) Once `timeout` has elapsed, the next call is admitted as a
Half-Open trial: a success resets `failure_count` to 0 and the state to
Closed; a quota-classified failure (with the failure count at threshold, as
in every reachable Open state) returns the state to Open. -/
theorem C1_circuit_breaker_state_machine :
    (∀ (th : Nat) (timeout : Rat) (expected : List String)
       (evs : List (Rat × String × String)),
       1 ≤ th → evs.length = th →
       (∀ e ∈ evs, isQuotaError expected e.2.1 e.2.2 = true) →
       (runCalls (initBreaker th timeout expected) (asQuotaCalls evs)).state =
           CircuitState.OPEN ∧
       (runCalls (initBreaker th timeout expected)
           (asQuotaCalls evs)).failure_count = th ∧
       (∀ k, k < th →
         (runCalls (initBreaker th timeout expected)
             (asQuotaCalls (evs.take k))).state = CircuitState.CLOSED)) ∧
    (∀ (b : Breaker) (now tf : Rat) (o : FnOutcome),
       b.state = CircuitState.OPEN → b.last_failure_time = some tf →
       now - tf < b.timeout →
       call b now o = (CallResult.rejectedOpen (b.timeout - (now - tf)), b)) ∧
    (∀ (b : Breaker) (now tf : Rat),
       b.state = CircuitState.OPEN → b.last_failure_time = some tf →
       b.timeout ≤ now - tf →
       ((call b now FnOutcome.success).1 = CallResult.ok ∧
        (call b now FnOutcome.success).2.failure_count = 0 ∧
        (call b now FnOutcome.success).2.state = CircuitState.CLOSED) ∧
       (∀ n m, isQuotaError b.expected_errors n m = true →
          b.failure_threshold ≤ b.failure_count + 1 →
          (call b now (FnOutcome.raise n m)).1 = CallResult.raised n m ∧
          (call b now (FnOutcome.raise n m)).2.state = CircuitState.OPEN)) := by
  refine ⟨?_, ?_, ?_⟩
  · intro th timeout expected evs hth hlen hq
    have hrun := runCalls_closed_quota evs (initBreaker th timeout expected)
      (by simp [initBreaker]) (by simpa [initBreaker] using hq)
      (by simp [initBreaker, hlen])
    have h0 : ¬ evs.length = 0 := by omega
    refine ⟨?_, ?_, ?_⟩
    · rw [hrun.2, if_neg h0, if_pos (by simp [initBreaker, hlen])]
    · rw [hrun.1]
      simp [initBreaker, hlen]
    · intro k hk
      have hlen2 : (evs.take k).length = k := by
        rw [List.length_take, hlen]
        omega
      have hrun2 := runCalls_closed_quota (evs.take k)
        (initBreaker th timeout expected) (by simp [initBreaker])
        (by
          intro e he
          simpa [initBreaker] using hq e (List.mem_of_mem_take he))
        (by simp only [initBreaker, hlen2]; omega)
      rw [hrun2.2]
      by_cases hk0 : (evs.take k).length = 0
      · rw [if_pos hk0]
      · rw [if_neg hk0, if_neg (by simp only [initBreaker, hlen2]; omega)]
  · intro b now tf o hO hlft hlt
    have hreset : shouldAttemptReset b now = false := by
      simp only [shouldAttemptReset, hlft, decide_eq_false_iff_not]
      exact not_le.mpr hlt
    unfold call
    rw [if_pos ⟨hO, hreset⟩, hlft]
  · intro b now tf hO hlft hle
    have hreset : shouldAttemptReset b now = true := by
      simp only [shouldAttemptReset, hlft, decide_eq_true_eq]
      exact hle
    have hadm : ¬(b.state = CircuitState.OPEN ∧
        shouldAttemptReset b now = false) := by
      simp [hreset]
    constructor
    · unfold call
      rw [if_neg hadm]
      simp [hO]
    · intro n m hq hth
      unfold call
      rw [if_neg hadm]
      simp [hO, hq, recordFailure, hth]

/-- C1 (witness): the state-machine theorem applied to concrete data — a
threshold-2 breaker opened by two throttling failures (still Closed after
one), a not-yet-expired Open breaker rejecting with the remaining wait, and
an expired Open breaker whose trial success closes it and whose trial quota
failure re-opens it. -/
theorem C1_circuit_breaker_state_machine_witness :
    (CircuitBreakerModel.runCalls
        (CircuitBreakerModel.initBreaker 2 300
          CircuitBreakerModel.defaultExpectedErrors)
        (CircuitBreakerModel.asQuotaCalls
          [(0, "ThrottlingException", "t"), (1, "ThrottlingException", "t")])).state =
      CircuitBreakerModel.CircuitState.OPEN ∧
    (CircuitBreakerModel.runCalls
        (CircuitBreakerModel.initBreaker 2 300
          CircuitBreakerModel.defaultExpectedErrors)
        (CircuitBreakerModel.asQuotaCalls [(0, "ThrottlingException", "t")])).state =
      CircuitBreakerModel.CircuitState.CLOSED ∧
    CircuitBreakerModel.call CircuitBreakerModel.openTimedOutBreaker 100
        CircuitBreakerModel.FnOutcome.success =
      (CircuitBreakerModel.CallResult.rejectedOpen (300 - (100 - 0)),
        CircuitBreakerModel.openTimedOutBreaker) ∧
    (CircuitBreakerModel.call CircuitBreakerModel.openTimedOutBreaker 1000
        CircuitBreakerModel.FnOutcome.success).2.state =
      CircuitBreakerModel.CircuitState.CLOSED ∧
    (CircuitBreakerModel.call CircuitBreakerModel.openTimedOutBreaker 1000
        (CircuitBreakerModel.FnOutcome.raise "ThrottlingException" "t")).2.state =
      CircuitBreakerModel.CircuitState.OPEN := by
  have h1 := C1_circuit_breaker_state_machine.1 2 300 defaultExpectedErrors
    [(0, "ThrottlingException", "t"), (1, "ThrottlingException", "t")]
    (by decide) rfl (by decide)
  have h2 := C1_circuit_breaker_state_machine.2.1 openTimedOutBreaker 100 0
    FnOutcome.success rfl rfl (by norm_num [openTimedOutBreaker])
  have h3 := C1_circuit_breaker_state_machine.2.2 openTimedOutBreaker 1000 0
    rfl rfl (by norm_num [openTimedOutBreaker])
  refine ⟨h1.1, ?_, ?_, h3.1.2.2, (h3.2 "ThrottlingException" "t" (by decide) (by decide)).2⟩
  · simpa using h1.2.2 1 (by decide)
  · rw [h2]
    simp [openTimedOutBreaker]

end CircuitBreakerModel

namespace RateLimiterModel

/-- Zero-token `acquire` calls within each other's 60-second windows and
under the request budget record their timestamps in order without sleeping
and without touching the token window. -/
theorem runAcquires_no_sleep (rpm tpm : Nat) :
    ∀ (ts pre : List Rat) (acc : Rat),
      pre.length + ts.length ≤ rpm →
      (∀ t ∈ pre ++ ts, ∀ u ∈ ts, u - 60 < t) →
      runAcquires
          { requests_per_minute := rpm, tokens_per_minute := tpm
            request_times := pre, token_counts := [] }
          acc (ts.map (fun t => (t, 0))) =
        Except.ok
          ({ requests_per_minute := rpm, tokens_per_minute := tpm
             request_times := pre ++ ts, token_counts := [] }, acc) := by
  intro ts
  induction ts with
  | nil =>
      intro pre acc _ _
      simp [runAcquires]
  | cons t rest ih =>
      intro pre acc hlen hwin
      have hkeep : pre.filter (fun x => decide (t - 60 < x)) = pre := by
        apply List.filter_eq_self.mpr
        intro x hx
        simp only [decide_eq_true_eq]
        exact hwin x (List.mem_append_left _ hx) t (List.mem_cons_self _ _)
      have hlt : ¬ rpm ≤ pre.length := by
        simp only [List.length_cons] at hlen
        omega
      have hacq : acquire
          { requests_per_minute := rpm, tokens_per_minute := tpm
            request_times := pre, token_counts := [] } t 0 =
          Except.ok
            ({ requests_per_minute := rpm, tokens_per_minute := tpm
               request_times := pre ++ [t], token_counts := [] }, 0, t) := by
        unfold acquire
        simp only [List.filter_nil, hkeep]
        rw [if_neg hlt]
        simp [acquireTokenPhase]
      simp only [List.map_cons, runAcquires, hacq]
      rw [add_zero]
      have := ih (pre ++ [t]) acc
        (by simp only [List.length_append, List.length_cons,
              List.length_nil] at hlen ⊢; omega)
        (by
          intro x hx u hu
          apply hwin x _ u (List.mem_cons_of_mem _ hu)
          simp only [List.append_assoc, List.singleton_append] at hx
          exact hx)
      rw [this]
      simp

/-- C8 (amended): for every `requests_per_minute` limit `N ≥ 1`, `acquire`
never raises, and issuing `N+1` zero-token calls within a window shorter
than 60 seconds causes the `(N+1)`-th call to sleep exactly until the
oldest recorded timestamp is 60 seconds old (the returned clock is
`t0 + 60`).  For `N = 0` the very first call raises an `IndexError`
(see the counterexample), which is the only amendment the code forces. -/
theorem C8_rate_limiter_amended :
    (∀ (s : RLState) (now : Rat) (est : Nat),
       1 ≤ s.requests_per_minute → ∃ out, acquire s now est = Except.ok out) ∧
    (∀ (tpm : Nat) (t0 tlast : Rat) (rest : List Rat),
       (∀ t ∈ t0 :: rest, t0 ≤ t ∧ t ≤ tlast) →
       tlast - t0 < 60 →
       runAcquires (initRL (t0 :: rest).length tpm) 0
           ((t0 :: rest).map (fun t => (t, 0))) =
         Except.ok
           ({ requests_per_minute := (t0 :: rest).length
              tokens_per_minute := tpm
              request_times := t0 :: rest, token_counts := [] }, 0) ∧
       0 < 60 - (tlast - t0) ∧
       (∃ s2, acquire
           { requests_per_minute := (t0 :: rest).length
             tokens_per_minute := tpm
             request_times := t0 :: rest, token_counts := [] } tlast 0 =
           Except.ok (s2, 60 - (tlast - t0), t0 + 60))) := by
  constructor
  · intro s now est hrpm
    unfold acquire
    by_cases hc : s.requests_per_minute ≤
        (s.request_times.filter (fun t => decide (now - 60 < t))).length
    · rw [if_pos hc]
      cases hhead :
          (s.request_times.filter (fun t => decide (now - 60 < t))).head? with
      | none =>
          exfalso
          rw [List.head?_eq_none_iff] at hhead
          rw [hhead] at hc
          simp at hc
          omega
      | some t0 => exact ⟨_, rfl⟩
    · rw [if_neg hc]
      exact ⟨_, rfl⟩
  · intro tpm t0 tlast rest hin hspan
    have hrun := runAcquires_no_sleep ((t0 :: rest).length) tpm (t0 :: rest)
      [] 0 (by simp)
      (by
        intro x hx u hu
        simp only [List.nil_append] at hx
        have hxlo := (hin x hx).1
        have huhi := (hin u hu).2
        linarith)
    have hsleep : (0 : Rat) < 60 - (tlast - t0) := by linarith
    refine ⟨by simpa using hrun, hsleep, ?_⟩
    have hkeep : (t0 :: rest).filter (fun x => decide (tlast - 60 < x)) =
        t0 :: rest := by
      apply List.filter_eq_self.mpr
      intro x hx
      simp only [decide_eq_true_eq]
      have := (hin x hx).1
      linarith
    have hnow : tlast + (60 - (tlast - t0)) = t0 + 60 := by ring
    refine ⟨{ requests_per_minute := (t0 :: rest).length
              tokens_per_minute := tpm
              request_times := (t0 :: rest) ++ [t0 + 60]
              token_counts := [] }, ?_⟩
    unfold acquire acquireTokenPhase
    simp only [List.filter_nil, hkeep]
    rw [if_pos (le_refl _)]
    simp only [List.head?_cons]
    rw [if_pos hsleep]
    simp only [List.map_nil, List.sum_nil]
    rw [if_neg (by omega : ¬ tpm < 0 + 0)]
    simp only [hnow, add_zero]
    simp
    intro h
    linarith

/-- C8 (counterexample): with `requests_per_minute = 0` (an accepted
configuration), the very first `acquire` evaluates `request_times[0]` on an
empty list and raises `IndexError` — so `acquire` is not raise-free for
every configured limit, and the `(N+1)`-th call (here the first) raises
rather than blocking. -/
theorem C8_rate_limiter_counterexample :
    RateLimiterModel.acquire (RateLimiterModel.initRL 0 100000) 0 0 =
      Except.error "IndexError: list index out of range" := rfl

/-- C8 (witness): the amended theorem applied to a concrete limiter
(`N = 2`, calls at times 0 and 10, third call at time 30 sleeping
`60 - 30` and resuming at `0 + 60`), and a concrete raise-free call. -/
theorem C8_rate_limiter_witness :
    (∃ out, RateLimiterModel.acquire (RateLimiterModel.initRL 10 100000) 0 0 =
        Except.ok out) ∧
    0 < 60 - ((30 : Rat) - 0) ∧
    (∃ s2, RateLimiterModel.acquire
        { requests_per_minute := 2, tokens_per_minute := 100000
          request_times := [0, 10], token_counts := [] } 30 0 =
        Except.ok (s2, 60 - (30 - 0), 0 + 60)) := by
  have h1 := C8_rate_limiter_amended.1 (initRL 10 100000) 0 0 (by decide)
  have h2 := C8_rate_limiter_amended.2 100000 0 30 [10]
    (by
      intro t ht
      simp only [List.mem_cons, List.not_mem_nil, or_false] at ht
      rcases ht with h | h <;> subst h <;> constructor <;> norm_num)
    (by norm_num)
  exact ⟨h1, h2.2.1, by simpa using h2.2.2⟩

end RateLimiterModel

namespace TranscriptionParserModel

/-- Every chunk emitted by the `_adaptive_chunking` loop carries the
`total_chunks` value fixed before the walk started. -/
theorem chunkLoop_total_chunks (p : Parser) (n : Nat) (target : Rat)
    (sp : List String) :
    ∀ (segs : List TranscriptionSegment)
      (prev : Option TranscriptionSegment) (acc : ChunkAcc),
      (∀ c ∈ acc.chunks, c.total_chunks = n) →
      ∀ c ∈ (chunkLoop p n target sp prev acc segs).chunks,
        c.total_chunks = n := by
  intro segs
  induction segs with
  | nil => intro prev acc h c hc; exact h c hc
  | cons seg rest ih =>
      intro prev acc h c hc
      refine ih (some seg) (chunkStep p n target sp prev acc seg) ?_ c hc
      intro c2 hc2
      unfold chunkStep at hc2
      by_cases hbr : shouldBreak p target prev acc.curTokens seg = true ∧
          acc.cur ≠ []
      · rw [if_pos hbr] at hc2
        simp only [List.mem_append, List.mem_singleton] at hc2
        rcases hc2 with hmem | hnew
        · exact h c2 hmem
        · rw [hnew]
          simp [createChunk]
      · rw [if_neg hbr] at hc2
        exact h c2 hc2

/-- C10: in the multi-chunk path, every chunk records
`total_chunks = ceil(total_token_estimate / max_tokens_per_chunk)`, the
target computed before splitting — and for some inputs (the parsed `rs10`
transcript under a 5-token limit) this target (3) differs from the actual
number of chunks produced (1): the field is a pre-computed target, not the
real count. -/
theorem C10_total_chunks_is_precomputed_target :
    (∀ (p : Parser) (segments : List TranscriptionSegment)
       (speakers : List String) (totalTokens : Nat),
       ∀ c ∈ adaptiveChunking p segments speakers totalTokens,
         c.total_chunks = ceilDiv totalTokens p.max_tokens) ∧
    ((chunkTranscription (initParser 5) (parseTranscribeJson rs10)).length = 1 ∧
     (∀ c ∈ chunkTranscription (initParser 5) (parseTranscribeJson rs10),
        c.total_chunks =
          ceilDiv (countTokens (parseTranscribeJson rs10).full_text)
            (initParser 5).max_tokens) ∧
     ceilDiv (countTokens (parseTranscribeJson rs10).full_text)
         (initParser 5).max_tokens ≠
       (chunkTranscription (initParser 5) (parseTranscribeJson rs10)).length) := by
  constructor
  · intro p segments speakers totalTokens c hc
    unfold adaptiveChunking at hc
    have hloop := chunkLoop_total_chunks p
      (ceilDiv totalTokens p.max_tokens)
      (((totalTokens / ceilDiv totalTokens p.max_tokens : Nat) : Rat))
      speakers segments none
      { chunks := [], cur := [], curTokens := 0, chunkId := 0 }
      (by intro c2 hc2; simp at hc2)
    by_cases hcur :
        (chunkLoop p (ceilDiv totalTokens p.max_tokens)
          (((totalTokens / ceilDiv totalTokens p.max_tokens : Nat) : Rat))
          speakers none
          { chunks := [], cur := [], curTokens := 0, chunkId := 0 }
          segments).cur = []
    · rw [if_pos hcur] at hc
      exact hloop c hc
    · rw [if_neg hcur] at hc
      simp only [List.mem_append, List.mem_singleton] at hc
      rcases hc with hmem | hnew
      · exact hloop c hmem
      · rw [hnew]
        simp [createChunk]
  · exact ⟨by decide, by decide, by decide⟩

/-- C10 (witness): the universally quantified half applied to the one chunk
the `rs10` input actually produces. -/
theorem C10_total_chunks_witness :
    ((adaptiveChunking (initParser 5) (parseTranscribeJson rs10).segments
        (parseTranscribeJson rs10).speakers 11).getD 0 defaultChunk).total_chunks =
      ceilDiv 11 (initParser 5).max_tokens := by
  have hmem : (adaptiveChunking (initParser 5) (parseTranscribeJson rs10).segments
      (parseTranscribeJson rs10).speakers 11).getD 0 defaultChunk ∈
      adaptiveChunking (initParser 5) (parseTranscribeJson rs10).segments
        (parseTranscribeJson rs10).speakers 11 := by
    have hlen : (adaptiveChunking (initParser 5)
        (parseTranscribeJson rs10).segments
        (parseTranscribeJson rs10).speakers 11).length = 1 := by decide
    cases hl : adaptiveChunking (initParser 5) (parseTranscribeJson rs10).segments
        (parseTranscribeJson rs10).speakers 11 with
    | nil => rw [hl] at hlen; simp at hlen
    | cons a l => simp [List.getD]
  exact C10_total_chunks_is_precomputed_target.1 (initParser 5)
    (parseTranscribeJson rs10).segments (parseTranscribeJson rs10).speakers 11
    _ hmem

/-- Python `' '.join` over a concatenation of two nonempty lists splits into
the two joins separated by one space. -/
theorem spaceJoin_append :
    ∀ (A B : List String), A ≠ [] → B ≠ [] →
      spaceJoin (A ++ B) = spaceJoin A ++ " " ++ spaceJoin B := by
  intro A
  induction A with
  | nil => intro B hA _; exact absurd rfl hA
  | cons x A' ih =>
      intro B _ hB
      cases A' with
      | nil =>
          cases B with
          | nil => exact absurd rfl hB
          | cons b bs => simp [spaceJoin, joinWith]
      | cons x2 A2 =>
          have hstep : spaceJoin ((x :: x2 :: A2) ++ B) =
              x ++ " " ++ spaceJoin ((x2 :: A2) ++ B) := by
            simp [spaceJoin, joinWith]
          rw [hstep, ih B (by simp) hB]
          simp [spaceJoin, joinWith, String.append_assoc]

/-- Joining the per-part joins of nonempty parts equals joining the
flattened parts. -/
theorem spaceJoin_flatten :
    ∀ (ps : List (List String)), (∀ x ∈ ps, x ≠ []) →
      spaceJoin (ps.map spaceJoin) = spaceJoin ps.flatten := by
  intro ps
  induction ps with
  | nil => intro _; rfl
  | cons a rest ih =>
      intro h
      cases rest with
      | nil => simp [spaceJoin, joinWith]
      | cons b rest2 =>
          have ha : a ≠ [] := h a (by simp)
          have hflat : ((b :: rest2).flatten) ≠ [] := by
            have hb : b ≠ [] := h b (by simp)
            cases b with
            | nil => exact absurd rfl hb
            | cons y ys => simp [List.flatten]
          have hstep : spaceJoin ((a :: b :: rest2).map spaceJoin) =
              spaceJoin a ++ " " ++ spaceJoin ((b :: rest2).map spaceJoin) := by
            simp [spaceJoin, joinWith]
          rw [hstep, ih (fun x hx => h x (by simp [hx]))]
          rw [show (a :: b :: rest2).flatten = a ++ (b :: rest2).flatten by
            simp [List.flatten]]
          rw [spaceJoin_append a ((b :: rest2).flatten) ha hflat]

/-- Token sums distribute over list append. -/
theorem tokenSum_append (A B : List TranscriptionSegment) :
    tokenSum (A ++ B) = tokenSum A + tokenSum B := by
  simp [tokenSum]

/-- Specification of the overlap scan `overlapGo`: starting from an
already-collected suffix `acc` within budget, the result stays within the
budget, is a suffix of the whole (reversed-prefix plus `acc`) list, and is
at least as long as any in-budget suffix. -/
theorem overlapGo_spec (target : Nat) :
    ∀ (rl acc : List TranscriptionSegment),
      tokenSum acc ≤ target →
      tokenSum (overlapGo target rl (tokenSum acc) acc) ≤ target ∧
      (∃ k, overlapGo target rl (tokenSum acc) acc =
        (rl.reverse ++ acc).drop k) ∧
      (∀ j, tokenSum ((rl.reverse ++ acc).drop j) ≤ target →
        ((rl.reverse ++ acc).drop j).length ≤
          (overlapGo target rl (tokenSum acc) acc).length) := by
  intro rl
  induction rl with
  | nil =>
      intro acc hacc
      refine ⟨hacc, ⟨0, by simp [overlapGo]⟩, ?_⟩
      intro j _
      simp only [List.reverse_nil, List.nil_append, overlapGo]
      rw [List.length_drop]
      omega
  | cons s rl' ih =>
      intro acc hacc
      have hfull : (s :: rl').reverse ++ acc = rl'.reverse ++ (s :: acc) := by
        simp
      by_cases hover : target < tokenSum acc + countTokens s.text
      · have hres : overlapGo target (s :: rl') (tokenSum acc) acc = acc := by
          simp [overlapGo, hover]
        rw [hres]
        refine ⟨hacc, ⟨(s :: rl').reverse.length, (List.drop_left _ _).symm⟩, ?_⟩
        intro j hj
        by_cases hjle : j ≤ rl'.reverse.length
        · exfalso
          rw [hfull, List.drop_append_of_le_length hjle] at hj
          rw [tokenSum_append] at hj
          have hcons : tokenSum (s :: acc) =
              countTokens s.text + tokenSum acc := by
            simp [tokenSum]
          omega
        · rw [List.length_drop]
          have hlen : ((s :: rl').reverse ++ acc).length =
              rl'.reverse.length + 1 + acc.length := by
            simp
            omega
          omega
      · have hcons : tokenSum (s :: acc) = tokenSum acc + countTokens s.text := by
          simp [tokenSum]
          omega
        have hacc2 : tokenSum (s :: acc) ≤ target := by omega
        have hres : overlapGo target (s :: rl') (tokenSum acc) acc =
            overlapGo target rl' (tokenSum (s :: acc)) (s :: acc) := by
          simp only [overlapGo, if_neg hover]
          rw [hcons]
        rw [hres, hfull]
        exact ih (s :: acc) hacc2

/-- Specification of `_get_overlap_segments`: the result is within the token
budget, is a suffix of the input, and is the longest suffix within budget. -/
theorem getOverlapSegments_longest (target : Nat)
    (segs : List TranscriptionSegment) :
    tokenSum (getOverlapSegments target segs) ≤ target ∧
    (∃ k, getOverlapSegments target segs = segs.drop k) ∧
    (∀ j, tokenSum (segs.drop j) ≤ target →
      (segs.drop j).length ≤ (getOverlapSegments target segs).length) := by
  have h0 : tokenSum ([] : List TranscriptionSegment) = 0 := by simp [tokenSum]
  have h := overlapGo_spec target segs.reverse []
  rw [h0] at h
  have h := h (by omega)
  simp only [List.reverse_reverse, List.append_nil] at h
  exact h

/-- The designated predecessor of a chunk appended after `c1 :: l` is
independent of the fallback segment list. -/
theorem lastSegsD_cons (prevSegs : List TranscriptionSegment)
    (c1 : TranscriptionChunk) (l : List TranscriptionChunk) :
    lastSegsD prevSegs (c1 :: l) = lastSegsD c1.segments l := by
  cases l with
  | nil => simp [lastSegsD]
  | cons c2 l2 =>
      simp only [lastSegsD, List.getLast?_cons_cons]
      cases h : (c2 :: l2).getLast? with
      | none => exact absurd (List.getLast?_eq_none_iff.mp h) (by simp)
      | some x => rfl

/-- Appending a chunk appends one entry to the non-overlap decomposition,
dropping the overlap of the designated predecessor. -/
theorem newSegsFrom_snoc (p : Parser) :
    ∀ (l : List TranscriptionChunk) (prevSegs : List TranscriptionSegment)
      (c : TranscriptionChunk),
      newSegsFrom p prevSegs (l ++ [c]) =
        newSegsFrom p prevSegs l ++
          [c.segments.drop
            (getOverlapSegments p.overlap_tokens (lastSegsD prevSegs l)).length] := by
  intro l
  induction l with
  | nil => intro prevSegs c; simp [newSegsFrom, lastSegsD]
  | cons c1 l' ih =>
      intro prevSegs c
      simp only [List.cons_append, newSegsFrom, List.append_eq]
      rw [ih c1.segments c, lastSegsD_cons]

/-- Appending a chunk appends one entry to `chunkNewSegments`: the whole
chunk if it is the first, or the chunk minus its predecessor's overlap. -/
theorem chunkNewSegments_snoc (p : Parser) (l : List TranscriptionChunk)
    (c : TranscriptionChunk) :
    chunkNewSegments p (l ++ [c]) =
      chunkNewSegments p l ++
        [(match l.getLast? with
          | none => c.segments
          | some lc =>
              c.segments.drop
                (getOverlapSegments p.overlap_tokens lc.segments).length)] := by
  cases l with
  | nil => simp [chunkNewSegments, newSegsFrom]
  | cons c1 l' =>
      simp only [List.cons_append, chunkNewSegments]
      rw [newSegsFrom_snoc p l' c1.segments c]
      have hlast : ∀ (l2 : List TranscriptionChunk) (c2 : TranscriptionChunk),
          (match (c2 :: l2).getLast? with
           | none => c.segments
           | some lc =>
               c.segments.drop
                 (getOverlapSegments p.overlap_tokens lc.segments).length)
          = c.segments.drop
              (getOverlapSegments p.overlap_tokens (lastSegsD c2.segments l2)).length := by
        intro l2
        induction l2 with
        | nil => intro c2; simp [lastSegsD]
        | cons c3 l3 ih3 =>
            intro c2
            rw [List.getLast?_cons_cons, lastSegsD_cons]
            exact ih3 c3
      rw [hlast l' c1]

/-- Chain extension: a chunk whose segments start with the previous chunk's
overlap may be appended to a chained list. -/
theorem ChunkChain_snoc (p : Parser) :
    ∀ (l : List TranscriptionChunk) (c : TranscriptionChunk),
      ChunkChain p l →
      (match l.getLast? with
       | none => True
       | some lc =>
           getOverlapSegments p.overlap_tokens lc.segments ++
             c.segments.drop
               (getOverlapSegments p.overlap_tokens lc.segments).length =
             c.segments) →
      ChunkChain p (l ++ [c]) := by
  intro l
  induction l with
  | nil =>
      intro c _ _
      simp [ChunkChain]
  | cons c1 l' ih =>
      intro c hchain hcond
      cases l' with
      | nil =>
          simp only [List.cons_append, List.nil_append, ChunkChain]
          simpa using hcond
      | cons c2 l2 =>
          simp only [List.cons_append, ChunkChain] at hchain ⊢
          refine ⟨hchain.1, ?_⟩
          have hcond2 := hcond
          rw [List.getLast?_cons_cons] at hcond2
          exact ih c hchain.2 hcond2

/-- Closing the current buffer as a chunk preserves the decomposition
invariants: the flattened non-overlap parts equal the processed segments,
every part is nonempty, and the chunk list stays chained. -/
theorem appendChunk_inv (p : Parser) (n id : Nat) (sp : List String)
    (processed : List TranscriptionSegment) (acc : ChunkAcc)
    (h : LoopInv p processed acc) (hcur : acc.cur ≠ []) :
    (chunkNewSegments p (acc.chunks ++ [createChunk id n acc.cur sp])).flatten
        = processed ∧
    (∀ s ∈ chunkNewSegments p (acc.chunks ++ [createChunk id n acc.cur sp]),
        s ≠ []) ∧
    ChunkChain p (acc.chunks ++ [createChunk id n acc.cur sp]) := by
  obtain ⟨hflat, hne, hlastc, hchain⟩ := h
  rw [chunkNewSegments_snoc]
  cases hl : acc.chunks.getLast? with
  | none =>
      have hnil : acc.chunks = [] := List.getLast?_eq_none_iff.mp hl
      have hproc : acc.cur = processed := by
        have h2 := hflat
        simp only [curNew, hl] at h2
        simpa [hnil, chunkNewSegments] using h2
      refine ⟨?_, ?_, ?_⟩
      · simp [hl, hnil, chunkNewSegments, createChunk, hproc]
      · intro s hs
        simp only [hl, hnil, chunkNewSegments, List.nil_append,
          List.mem_singleton] at hs
        rw [hs]
        simpa [createChunk] using hcur
      · rw [hnil]
        simp [ChunkChain]
  | some lc =>
      simp only [hl] at hlastc
      obtain ⟨hpre, hcnne⟩ := hlastc
      have hcn : curNew p acc =
          acc.cur.drop (getOverlapSegments p.overlap_tokens lc.segments).length := by
        simp [curNew, hl]
      refine ⟨?_, ?_, ?_⟩
      · simp only [hl, createChunk, List.flatten_append, List.flatten_cons,
          List.flatten_nil, List.append_nil]
        rw [← hcn]
        exact hflat
      · intro s hs
        simp only [hl, List.mem_append, List.mem_singleton] at hs
        rcases hs with hs | hs
        · exact hne s hs
        · rw [hs]
          simpa [createChunk, ← hcn] using hcnne
      · refine ChunkChain_snoc p acc.chunks _ hchain ?_
        simp only [hl, createChunk]
        rw [← hcn]
        exact hpre

/-- One loop iteration of `_adaptive_chunking` preserves the invariant. -/
theorem chunkStep_inv (p : Parser) (n : Nat) (target : Rat) (sp : List String)
    (prev : Option TranscriptionSegment)
    (processed : List TranscriptionSegment) (acc : ChunkAcc)
    (seg : TranscriptionSegment) (h : LoopInv p processed acc) :
    LoopInv p (processed ++ [seg]) (chunkStep p n target sp prev acc seg) := by
  unfold chunkStep
  by_cases hbr : shouldBreak p target prev acc.curTokens seg = true ∧
      acc.cur ≠ []
  · rw [if_pos hbr]
    have happ := appendChunk_inv p n acc.chunkId sp processed acc h hbr.2
    have hclast : (acc.chunks ++ [createChunk acc.chunkId n acc.cur sp]).getLast?
        = some (createChunk acc.chunkId n acc.cur sp) :=
      List.getLast?_concat _
    have hsegs : (createChunk acc.chunkId n acc.cur sp).segments = acc.cur := rfl
    refine ⟨?_, ?_, ?_, ?_⟩
    · simp only [curNew, hclast, hsegs, List.drop_left]
      rw [happ.1]
    · exact happ.2.1
    · simp [hclast, curNew, hsegs, List.drop_left]
    · exact happ.2.2
  · rw [if_neg hbr]
    obtain ⟨hflat, hne, hlastc, hchain⟩ := h
    cases hl : acc.chunks.getLast? with
    | none =>
        have hnil : acc.chunks = [] := List.getLast?_eq_none_iff.mp hl
        have hproc : acc.cur = processed := by
          have h2 := hflat
          simp only [curNew, hl] at h2
          simpa [hnil, chunkNewSegments] using h2
        refine ⟨?_, ?_, ?_, ?_⟩
        · simp [curNew, hl, hnil, chunkNewSegments, hproc]
        · simpa [hnil, chunkNewSegments] using hne
        · simp [hl, hnil]
        · simpa [hnil] using hchain
    | some lc =>
        simp only [hl] at hlastc
        obtain ⟨hpre, hcnne⟩ := hlastc
        have hcn : curNew p acc =
            acc.cur.drop
              (getOverlapSegments p.overlap_tokens lc.segments).length := by
          simp [curNew, hl]
        have hsplit : acc.cur ++ [seg] =
            getOverlapSegments p.overlap_tokens lc.segments ++
              (curNew p acc ++ [seg]) := by
          rw [← List.append_assoc, hpre]
        have hdrop : (acc.cur ++ [seg]).drop
            (getOverlapSegments p.overlap_tokens lc.segments).length =
            curNew p acc ++ [seg] := by
          rw [hsplit, List.drop_left]
        refine ⟨?_, ?_, ?_, ?_⟩
        · simp only [curNew, hl, hdrop]
          rw [← List.append_assoc, ← hcn, hflat]
        · exact hne
        · simp only [hl, curNew, hdrop]
          exact ⟨by rw [← hcn, ← hsplit], by simp⟩
        · exact hchain

/-- The whole `_adaptive_chunking` walk preserves the invariant. -/
theorem chunkLoop_inv (p : Parser) (n : Nat) (target : Rat)
    (sp : List String) :
    ∀ (segs : List TranscriptionSegment)
      (prev : Option TranscriptionSegment) (acc : ChunkAcc)
      (processed : List TranscriptionSegment),
      LoopInv p processed acc →
      LoopInv p (processed ++ segs) (chunkLoop p n target sp prev acc segs) := by
  intro segs
  induction segs with
  | nil =>
      intro prev acc processed h
      simpa using h
  | cons seg rest ih =>
      intro prev acc processed h
      have hstep := chunkStep_inv p n target sp prev processed acc seg h
      have hrun := ih (some seg) (chunkStep p n target sp prev acc seg)
        (processed ++ [seg]) hstep
      simpa using hrun

/-- The output of `_adaptive_chunking` decomposes exactly into the input
segments: the per-chunk non-overlap parts are nonempty, flatten back to the
original segment list, and consecutive chunks are chained by their
recomputed overlaps. -/
theorem adaptiveChunking_inv (p : Parser)
    (segments : List TranscriptionSegment) (speakers : List String)
    (totalTokens : Nat) :
    (chunkNewSegments p
        (adaptiveChunking p segments speakers totalTokens)).flatten =
        segments ∧
    (∀ s ∈ chunkNewSegments p
        (adaptiveChunking p segments speakers totalTokens), s ≠ []) ∧
    ChunkChain p (adaptiveChunking p segments speakers totalTokens) := by
  have hinit : LoopInv p []
      { chunks := [], cur := [], curTokens := 0, chunkId := 0 } := by
    refine ⟨?_, ?_, ?_, ?_⟩ <;> simp [curNew, chunkNewSegments, ChunkChain]
  have hrun := chunkLoop_inv p (ceilDiv totalTokens p.max_tokens)
    (((totalTokens / ceilDiv totalTokens p.max_tokens : Nat) : Rat)) speakers
    segments none { chunks := [], cur := [], curTokens := 0, chunkId := 0 }
    [] hinit
  rw [List.nil_append] at hrun
  unfold adaptiveChunking
  set r := chunkLoop p (ceilDiv totalTokens p.max_tokens)
    (((totalTokens / ceilDiv totalTokens p.max_tokens : Nat) : Rat)) speakers
    none { chunks := [], cur := [], curTokens := 0, chunkId := 0 } segments
    with hr
  by_cases hcur : r.cur = []
  · rw [if_pos hcur]
    obtain ⟨hflat, hne, hlastc, hchain⟩ := hrun
    cases hl : r.chunks.getLast? with
    | none =>
        have hnil : r.chunks = [] := List.getLast?_eq_none_iff.mp hl
        have hseg : segments = [] := by
          have h2 := hflat
          simp only [curNew, hl] at h2
          rw [hnil, hcur] at h2
          simpa [chunkNewSegments] using h2.symm
        rw [hnil, hseg]
        exact ⟨by simp [chunkNewSegments], by simp [chunkNewSegments],
          by simp [ChunkChain]⟩
    | some lc =>
        exfalso
        simp only [hl] at hlastc
        obtain ⟨hpre, hcnne⟩ := hlastc
        have : curNew p r = [] := by
          simp [curNew, hl, hcur]
        exact hcnne this
  · rw [if_neg hcur]
    have happ := appendChunk_inv p (ceilDiv totalTokens p.max_tokens)
      r.chunkId speakers segments r hrun hcur
    exact happ

/-- C3 (amended): for every parsed transcript whose chunking produces more
than one chunk, removing each chunk's overlap (the longest in-budget suffix
of the previous chunk's segments, recomputed by `_get_overlap_segments`) and
concatenating the remaining chunk texts in order reproduces the
space-separated concatenation of the parsed segment texts — the transcript
text the chunker was actually given.  (This equals the `full_text` field
exactly when the transcript field of the input agrees with its items; the
counterexample shows the code never enforces that agreement.) -/
theorem C3_reconstruction_amended (p : Parser) (parsed : ParsedData)
    (hmulti : 1 < (chunkTranscription p parsed).length) :
    reconstructText p (chunkTranscription p parsed) =
      spaceJoin (parsed.segments.map (fun s => s.text)) := by
  unfold chunkTranscription at hmulti ⊢
  by_cases hle : countTokens parsed.full_text ≤ p.max_tokens
  · rw [if_pos hle] at hmulti
    simp at hmulti
  · rw [if_neg hle] at hmulti ⊢
    obtain ⟨hflat, hne, _⟩ := adaptiveChunking_inv p parsed.segments
      parsed.speakers (countTokens parsed.full_text)
    unfold reconstructText
    have hps : ∀ x ∈ (chunkNewSegments p (adaptiveChunking p parsed.segments
        parsed.speakers (countTokens parsed.full_text))).map
        (List.map (fun s => s.text)), x ≠ [] := by
      intro x hx
      obtain ⟨segs, hsegs, hx2⟩ := List.mem_map.mp hx
      rw [← hx2]
      simpa using hne segs hsegs
    have hcomp : (chunkNewSegments p (adaptiveChunking p parsed.segments
          parsed.speakers (countTokens parsed.full_text))).map
          (fun segs => spaceJoin (segs.map (fun s => s.text))) =
        ((chunkNewSegments p (adaptiveChunking p parsed.segments
          parsed.speakers (countTokens parsed.full_text))).map
          (List.map (fun s => s.text))).map spaceJoin := by
      rw [List.map_map]
      rfl
    rw [hcomp, spaceJoin_flatten _ hps, ← List.map_flatten, hflat]

/-- C3 (counterexample): a parsed transcript (`rs3`) whose transcript field
disagrees with its items splits into two chunks, and the reconstruction
differs from the parsed full text — the claim as stated, quantifying over
every parsed transcript, is false. -/
theorem C3_reconstruction_counterexample :
    1 < (TranscriptionParserModel.chunkTranscription
        (TranscriptionParserModel.initParser 5)
        (TranscriptionParserModel.parseTranscribeJson
          TranscriptionParserModel.rs3)).length ∧
    TranscriptionParserModel.reconstructText
        (TranscriptionParserModel.initParser 5)
        (TranscriptionParserModel.chunkTranscription
          (TranscriptionParserModel.initParser 5)
          (TranscriptionParserModel.parseTranscribeJson
            TranscriptionParserModel.rs3)) ≠
      (TranscriptionParserModel.parseTranscribeJson
        TranscriptionParserModel.rs3).full_text := by
  decide

/-- C3 (witness): the amended reconstruction equation evaluated on the
concrete two-chunk split of `rs3`. -/
theorem C3_reconstruction_witness :
    TranscriptionParserModel.reconstructText
        (TranscriptionParserModel.initParser 5)
        (TranscriptionParserModel.chunkTranscription
          (TranscriptionParserModel.initParser 5)
          (TranscriptionParserModel.parseTranscribeJson
            TranscriptionParserModel.rs3)) =
      spaceJoin ((TranscriptionParserModel.parseTranscribeJson
        TranscriptionParserModel.rs3).segments.map (fun s => s.text)) :=
  C3_reconstruction_amended (initParser 5) (parseTranscribeJson rs3)
    (by decide)

/-- C7: `_get_overlap_segments` returns exactly the longest suffix of the
just-closed chunk's segments whose token estimate stays within the target
(within budget, a suffix, and at least as long as any in-budget suffix);
every non-first chunk of `_adaptive_chunking` is seeded with precisely that
overlap of its predecessor (the chunks are chained); and the configured
overlap budget `int(max_tokens_per_chunk * 0.1)` is at most 10 percent of
the configured maximum. -/
theorem C7_overlap_seeding :
    (∀ (target : Nat) (segs : List TranscriptionSegment),
       tokenSum (getOverlapSegments target segs) ≤ target ∧
       (∃ k, getOverlapSegments target segs = segs.drop k) ∧
       (∀ j, tokenSum (segs.drop j) ≤ target →
         (segs.drop j).length ≤ (getOverlapSegments target segs).length)) ∧
    (∀ (p : Parser) (segments : List TranscriptionSegment)
       (speakers : List String) (totalTokens : Nat),
       ChunkChain p (adaptiveChunking p segments speakers totalTokens)) ∧
    (∀ mx : Nat, (((initParser mx).overlap_tokens : Rat)) ≤ (mx : Rat) / 10) := by
  refine ⟨getOverlapSegments_longest, ?_, ?_⟩
  · intro p segments speakers totalTokens
    exact (adaptiveChunking_inv p segments speakers totalTokens).2.2
  · intro mx
    simp only [initParser]
    exact_mod_cast Nat.cast_div_le (α := Rat)

/-- C7 (witness): the overlap specification evaluated at a concrete budget
and segment list, the chaining of the concrete `rs3` split, and the 10
percent bound at the default configuration. -/
theorem C7_overlap_seeding_witness :
    TranscriptionParserModel.tokenSum
        (TranscriptionParserModel.getOverlapSegments 3
          TranscriptionParserModel.c7segs) ≤ 3 ∧
    (TranscriptionParserModel.c7segs.drop 0).length ≤
      (TranscriptionParserModel.getOverlapSegments 3
        TranscriptionParserModel.c7segs).length ∧
    TranscriptionParserModel.ChunkChain (TranscriptionParserModel.initParser 5)
      (TranscriptionParserModel.adaptiveChunking
        (TranscriptionParserModel.initParser 5)
        (TranscriptionParserModel.parseTranscribeJson
          TranscriptionParserModel.rs3).segments
        (TranscriptionParserModel.parseTranscribeJson
          TranscriptionParserModel.rs3).speakers 7) ∧
    ((TranscriptionParserModel.initParser 100000).overlap_tokens : Rat) ≤
      (100000 : Rat) / 10 :=
  ⟨(C7_overlap_seeding.1 3 c7segs).1,
   (C7_overlap_seeding.1 3 c7segs).2.2 0 (by decide),
   C7_overlap_seeding.2.1 (initParser 5) (parseTranscribeJson rs3).segments
     (parseTranscribeJson rs3).speakers 7,
   C7_overlap_seeding.2.2 100000⟩

end TranscriptionParserModel

/-! Remaining per-claim theorems. -/

/-- C2: the spec claims a per-stage output-token partition of a configured
ceiling `M` (`stage2 = round(0.25M)`, `stage3 = round(0.50M)`,
`stage4 = round(0.25M)`, `stage5 = M`).  The code disagrees with itself:
`main.py` passes the `max_output_tokens` keyword that
`DocumentGenerator.__init__` does not accept (so constructing the generator
raises a `TypeError`), no per-stage budgets exist, and the only stage-level
output-token setting is the hard-coded `8192` of stage 5, which differs from
the claimed `stage5 = M` at the default `M = 65536`. -/
theorem C2_token_budget_code_bug :
    DocumentGeneratorModel.stage5MaxTokensOverride ≠
      DocumentGeneratorModel.specStage5Budget
        DocumentGeneratorModel.defaultMaxOutputTokens ∧
    "max_output_tokens" ∈ DocumentGeneratorModel.mainDocumentGeneratorKwargs ∧
    "max_output_tokens" ∉ DocumentGeneratorModel.documentGeneratorInitParams := by
  decide

namespace CircuitBreakerModel

/-- C9 (counterexample): the claim says a non-quota-classified error leaves
the breaker state (and counters) unchanged, but an Open breaker whose
timeout has elapsed transitions to Half-Open before admitting the call, and
a non-quota failure does not restore it: here the state changes from OPEN to
HALF_OPEN even though "ValueError" matches no configured signature. -/
theorem C9_frame_counterexample :
    (CircuitBreakerModel.call CircuitBreakerModel.openTimedOutBreaker 1000
        (CircuitBreakerModel.FnOutcome.raise "ValueError" "boom")).2.state ≠
      CircuitBreakerModel.openTimedOutBreaker.state ∧
    CircuitBreakerModel.isQuotaError
      CircuitBreakerModel.openTimedOutBreaker.expected_errors
      "ValueError" "boom" = false := by
  have hreset : shouldAttemptReset openTimedOutBreaker 1000 = true := by
    simp [shouldAttemptReset, openTimedOutBreaker]
    norm_num
  have hquota : isQuotaError openTimedOutBreaker.expected_errors
      "ValueError" "boom" = false := by decide
  have hstate : openTimedOutBreaker.state = CircuitState.OPEN := rfl
  refine ⟨?_, hquota⟩
  simp [call, hreset, hquota, hstate]

/-- C9 (amended): whenever the breaker admits the protected call, the exact
exception the function raises is re-raised to the caller, and a
non-quota-classified error leaves `failure_count`, `last_failure_time` and
`last_success_time` unchanged; the `state` is also unchanged except that an
Open breaker whose timeout has elapsed has already moved to Half-Open upon
admitting the call (and stays there). -/
theorem C9_frame_amended (b : Breaker) (now : Rat) (errName errStr : String)
    (hadm : ¬(b.state = CircuitState.OPEN ∧ shouldAttemptReset b now = false)) :
    (call b now (FnOutcome.raise errName errStr)).1 =
      CallResult.raised errName errStr ∧
    (isQuotaError b.expected_errors errName errStr = false →
      (call b now (FnOutcome.raise errName errStr)).2.failure_count =
          b.failure_count ∧
      (call b now (FnOutcome.raise errName errStr)).2.last_failure_time =
          b.last_failure_time ∧
      (call b now (FnOutcome.raise errName errStr)).2.last_success_time =
          b.last_success_time ∧
      (call b now (FnOutcome.raise errName errStr)).2.state =
        (if b.state = CircuitState.OPEN then CircuitState.HALF_OPEN
         else b.state)) := by
  unfold call
  rw [if_neg hadm]
  by_cases hO : b.state = CircuitState.OPEN
  · simp only [hO, if_pos, if_true]
    by_cases hq : isQuotaError b.expected_errors errName errStr = true
    · simp [hq]
    · simp at hq
      simp [hq]
  · simp only [hO, if_neg, if_false]
    by_cases hq : isQuotaError b.expected_errors errName errStr = true
    · simp [hq]
    · simp at hq
      simp [hq]

/-- C9 (witness): the amended theorem applied to a concrete Closed breaker
and a concrete unrelated error. -/
theorem C9_frame_witness :
    (CircuitBreakerModel.call
        (CircuitBreakerModel.initBreaker 5 300
          CircuitBreakerModel.defaultExpectedErrors) 7
        (CircuitBreakerModel.FnOutcome.raise "ValueError" "boom")).1 =
      CircuitBreakerModel.CallResult.raised "ValueError" "boom" ∧
    (CircuitBreakerModel.call
        (CircuitBreakerModel.initBreaker 5 300
          CircuitBreakerModel.defaultExpectedErrors) 7
        (CircuitBreakerModel.FnOutcome.raise "ValueError" "boom")).2.state =
      CircuitBreakerModel.CircuitState.CLOSED := by
  have h := C9_frame_amended
    (initBreaker 5 300 defaultExpectedErrors) 7 "ValueError" "boom"
    (by simp [initBreaker])
  have h2 := h.2 (by decide)
  exact ⟨h.1, by rw [h2.2.2.2]; simp [initBreaker]⟩

end CircuitBreakerModel

namespace LLMClientModel

/-- Every error exit of the retry loop leaves the running totals untouched:
the totals are only written on the success path. -/
theorem invokeAux_error_totals (inT : Nat) (outs : Nat → AttemptOutcome)
    (maxR : Nat) :
    ∀ (fuel attempt : Nat) (totals : TokenUsage)
      (lastExc : Option (String × String)) (sleeps : List Nat)
      (e : Option (String × String)),
      (invokeAux inT outs maxR fuel attempt totals lastExc sleeps).result =
        Except.error e →
      (invokeAux inT outs maxR fuel attempt totals lastExc sleeps).totals =
        totals := by
  intro fuel
  induction fuel with
  | zero => intro attempt totals lastExc sleeps e _; rfl
  | succ fuel ih =>
      intro attempt totals lastExc sleeps e herr
      simp only [invokeAux] at herr ⊢
      cases houts : outs attempt with
      | success text => simp [houts] at herr
      | raise errName errStr =>
          simp only [houts] at herr ⊢
          by_cases hv : isValidationError errName = true
          · simp [hv] at herr ⊢
          · simp only [Bool.not_eq_true] at hv
            simp only [hv, Bool.false_eq_true, if_false] at herr ⊢
            by_cases hr : attempt + 1 < maxR
            · simp only [hr, if_true] at herr ⊢
              exact ih (attempt + 1) totals (some (errName, errStr))
                (sleeps ++ [2 ^ attempt]) e herr
            · simp [hr] at herr ⊢

/-- C6: the running token-usage accumulator is updated atomically with
success.  For `_invoke_internal` (hence `invoke`, which merely routes it
through the circuit breaker) and for `invoke_with_streaming`, any call that
ends in a raised error leaves the client total input/output token counters
exactly as they were before the call. -/
theorem C6_usage_totals_error_frame :
    (∀ (prompt : String) (systemPrompt : Option String)
       (outs : Nat → AttemptOutcome) (maxR : Nat) (totals : TokenUsage)
       (e : Option (String × String)),
       (invokeInternal prompt systemPrompt outs maxR totals).result =
           Except.error e →
       (invokeInternal prompt systemPrompt outs maxR totals).totals = totals) ∧
    (∀ (prompt : String) (systemPrompt : Option String)
       (events : List StreamEvent) (totals : TokenUsage) (e : String × String),
       (invokeWithStreaming prompt systemPrompt events totals).1 =
           Except.error e →
       (invokeWithStreaming prompt systemPrompt events totals).2 = totals) := by
  constructor
  · intro prompt systemPrompt outs maxR totals e herr
    exact invokeAux_error_totals _ outs maxR maxR 0 totals none [] e herr
  · intro prompt systemPrompt events totals e herr
    unfold invokeWithStreaming at herr ⊢
    cases hs : streamLoop "" events with
    | error x => simp [hs]
    | ok fullResponse => simp [hs] at herr

/-- C6 (witness): a concrete failing invocation (every attempt raises a
throttling error) and a concrete failing stream leave concrete totals
unchanged. -/
theorem C6_usage_totals_error_frame_witness :
    (invokeInternal "p" none
        (fun _ => AttemptOutcome.raise "ThrottlingException" "slow") 3
        { input_tokens := 5, output_tokens := 7 }).totals =
      { input_tokens := 5, output_tokens := 7 } ∧
    (invokeWithStreaming "p" none
        [StreamEvent.chunk "a", StreamEvent.raise "ModelStreamErrorException" "x"]
        { input_tokens := 5, output_tokens := 7 }).2 =
      { input_tokens := 5, output_tokens := 7 } := by
  constructor
  · exact C6_usage_totals_error_frame.1 "p" none
      (fun _ => AttemptOutcome.raise "ThrottlingException" "slow") 3
      { input_tokens := 5, output_tokens := 7 }
      (some ("ThrottlingException", "slow")) (by rfl)
  · exact C6_usage_totals_error_frame.2 "p" none
      [StreamEvent.chunk "a", StreamEvent.raise "ModelStreamErrorException" "x"]
      { input_tokens := 5, output_tokens := 7 }
      ("ModelStreamErrorException", "x") (by rfl)

end LLMClientModel

namespace DocumentGeneratorModel

open TranscriptionParserModel

/-- C4 (counterexample): with a failed stage 4 (null outline) but a
successful stage-5 model call, stage 5 receives a null input yet the
pipeline reports success and writes both artifacts — the claim that a
null/failed stage-4 output forces overall failure with no artifacts is
false on the code. -/
theorem C4_null_stage4_counterexample :
    ((DocumentGeneratorModel.processSingleChunk
        DocumentGeneratorModel.nullStage4Oracle
        DocumentGeneratorModel.trivialChunk)[3]?).map
        (fun r => r.output) = some none ∧
    (DocumentGeneratorModel.generateDocumentSingleChunk
        DocumentGeneratorModel.nullStage4Oracle "exec"
        DocumentGeneratorModel.trivialChunk "bkt").1.length = 2 ∧
    (DocumentGeneratorModel.generateDocumentSingleChunk
        DocumentGeneratorModel.nullStage4Oracle "exec"
        DocumentGeneratorModel.trivialChunk "bkt").2.toOption.isSome = true := by
  refine ⟨rfl, rfl, rfl⟩

/-- C4 (amended): whenever the terminal content-writing stage (stage 5)
itself ends with a null/failed result, `generate_document` raises and no
output artifact is written to storage; a null stage-4 output alone does not
abort the run. -/
theorem C4_failed_stage5_amended (o : PipelineOracle)
    (chunk : TranscriptionChunk) (eid bucket : String) (e5 : String)
    (h5 : o.stage5 = Except.error e5) :
    (generateDocumentSingleChunk o eid chunk bucket).1 = [] ∧
    (generateDocumentSingleChunk o eid chunk bucket).2 =
      Except.error "AttributeError: NoneType has no attribute encode" := by
  simp only [generateDocumentSingleChunk, processSingleChunk,
    stage5WriteContent, runModelStage, h5]
  simp [List.getLast?, stage6GenerateOutputs]

/-- C4 (witness): the amended theorem applied to the concrete oracle in
which only stage 5 fails. -/
theorem C4_failed_stage5_witness :
    (DocumentGeneratorModel.generateDocumentSingleChunk
        DocumentGeneratorModel.stage5FailsOracle "exec"
        DocumentGeneratorModel.trivialChunk "bkt").1 = [] ∧
    (DocumentGeneratorModel.generateDocumentSingleChunk
        DocumentGeneratorModel.stage5FailsOracle "exec"
        DocumentGeneratorModel.trivialChunk "bkt").2 =
      Except.error "AttributeError: NoneType has no attribute encode" :=
  C4_failed_stage5_amended stage5FailsOracle trivialChunk "exec" "bkt"
    "ThrottlingException" rfl

end DocumentGeneratorModel
